import Mathlib

set_option autoImplicit false

/-!
Verification of `v2/ansible/playbook/task.py` (the `Task` entity of the
playbook data model): attribute schema, legacy-syntax normalization
(`munge`), naming (`get_name`), conditional/tag gating through the
dependency chain, the serialize/deserialize contract, and `copy`.

Collaborator classes that are declared outside this file's source
(`Base`, `Block`, `Role`, `Conditional`, `Taggable`, `ModuleArgsParser`,
the lookup-plugin registry) are modelled from the specification where a
claim depends on their behaviour; each such definition carries a
`Modelled from the spec:` doc comment.
-/

namespace AnsibleTask

/-!
## Gating model: `evaluate_conditional` and `evaluate_tags`

`Task.evaluate_conditional` (task.py lines 271-279) and
`Task.evaluate_tags` (lines 281-288) consult, in order: every entry of
`self._dep_chain`, the enclosing `self._block` (when present), and
finally the mixin implementation reached through `super(Task, self)`.
The dependency-chain entries and the block are external scope objects;
we model each as a record of its two evaluation functions, and the
mixin (`Conditional` / `Taggable`, declared outside this file) as two
abstract functions carried by the task.
-/

/-- An ancestor scope (enclosing block, or a dependency-chain entry such
as a block or role), reduced to the two evaluation capabilities the
`Task` gating code calls on it. -/
structure Scope (V : Type) where
  evalCond : V → Bool
  evalTags : List String → List String → V → Bool

/-- The gating-relevant state of a `Task`: its dependency chain, its
optional enclosing block, and the behaviour of
`super(Task, self).evaluate_conditional` / `.evaluate_tags`
(the `Conditional` / `Taggable` mixins, external to task.py). -/
structure GTask (V : Type) where
  dep_chain : List (Scope V)
  block : Option (Scope V)
  superCond : V → Bool
  superTags : List String → List String → V → Bool

/-- The `for dep in self._dep_chain: if not dep.evaluate_conditional(...):
return False` loop of task.py lines 272-275: left-to-right with an early
false exit. -/
def evalChain {V : Type} (deps : List (Scope V)) (all_vars : V) : Bool :=
  match deps with
  | [] => true
  | d :: rest => if d.evalCond all_vars then evalChain rest all_vars else false

/-- `Task.evaluate_conditional` (task.py lines 271-279): the dependency
chain is walked first with early `return False`, then the block (when
present) may `return False`, and otherwise the result is the mixin's own
evaluation. -/
def GTask.evaluate_conditional {V : Type} (t : GTask V) (all_vars : V) : Bool :=
  if evalChain t.dep_chain all_vars then
    match t.block with
    | some b => if b.evalCond all_vars then t.superCond all_vars else false
    | none => t.superCond all_vars
  else false

/-- `Task.evaluate_tags` (task.py lines 281-288): `result` starts false
and is `|=`-accumulated over the dependency chain, the block when
present, and the mixin's own evaluation. -/
def GTask.evaluate_tags {V : Type} (t : GTask V) (only_tags skip_tags : List String)
    (all_vars : V) : Bool :=
  let r1 := t.dep_chain.foldl (fun r d => r || d.evalTags only_tags skip_tags all_vars) false
  let r2 := match t.block with
    | some b => r1 || b.evalTags only_tags skip_tags all_vars
    | none => r1
  r2 || t.superTags only_tags skip_tags all_vars

theorem evalChain_eq_all {V : Type} (deps : List (Scope V)) (v : V) :
    evalChain deps v = deps.all (fun d => d.evalCond v) := by
  induction deps with
  | nil => rfl
  | cons d rest ih =>
    simp only [evalChain, List.all_cons, ih]
    by_cases h : d.evalCond v <;> simp [h]

theorem foldl_or_eq_any {α : Type} (f : α → Bool) (l : List α) (b : Bool) :
    l.foldl (fun r x => r || f x) b = (b || l.any f) := by
  induction l generalizing b with
  | nil => simp
  | cons x xs ih => simp [List.foldl_cons, ih, Bool.or_assoc]

/-- Claim C1: `evaluate_conditional(vars)` is the conjunction, in order, of
every dependency-chain entry's evaluation, the enclosing block's
evaluation when a block is present, and the task's own (mixin) `when`
evaluation; a single false anywhere makes the result false. -/
theorem evaluate_conditional_conjunctive {V : Type} (t : GTask V) (v : V) :
    t.evaluate_conditional v =
      (t.dep_chain.all (fun d => d.evalCond v) &&
        (match t.block with
         | some b => b.evalCond v
         | none => true) &&
        t.superCond v) := by
  unfold GTask.evaluate_conditional
  rw [evalChain_eq_all]
  by_cases h : t.dep_chain.all (fun d => d.evalCond v)
  · cases hb : t.block with
    | none => simp [h]
    | some b =>
      by_cases hbe : b.evalCond v = true <;> simp [h, hbe]
  · rw [Bool.not_eq_true] at h
    simp [h]

/-- Claim C8: `evaluate_tags(only_tags, skip_tags, vars)` is true exactly when
at least one of the dependency-chain entries, the enclosing block (when
present), or the task's own (mixin) tag evaluation matches the
selection. -/
theorem evaluate_tags_disjunctive {V : Type} (t : GTask V) (o s : List String) (v : V) :
    t.evaluate_tags o s v = true ↔
      ((∃ d ∈ t.dep_chain, d.evalTags o s v = true) ∨
        (∃ b, t.block = some b ∧ b.evalTags o s v = true) ∨
        t.superTags o s v = true) := by
  unfold GTask.evaluate_tags
  rw [foldl_or_eq_any]
  cases hb : t.block with
  | none =>
    simp [List.any_eq_true, hb]
  | some b =>
    simp [List.any_eq_true, hb, Bool.or_assoc, or_assoc]

/-!
## Values and Python-dict association lists

Python values flowing through task data structures, and association
lists with Python-dict semantics (assignment overwrites in place, `del`
removes, lookup finds the entry; keys are unique in a real dict).
-/

/-- A Python value as it appears in task data structures. -/
inductive Value where
  | vnone : Value
  | vbool : Bool → Value
  | vint : Int → Value
  | vstr : String → Value
  | vlist : List Value → Value
  | vmap : List (String × Value) → Value
deriving Repr

/-- Python truthiness of a value (`if x:`). -/
def pyTruthy (v : Value) : Bool :=
  match v with
  | Value.vnone => false
  | Value.vbool b => b
  | Value.vint n => n ≠ 0
  | Value.vstr s => s ≠ ""
  | Value.vlist l => !l.isEmpty
  | Value.vmap m => !m.isEmpty

/-- `d.get(k)` / `k in d` on a dict represented as an association list. -/
def lookupKey {β : Type} (m : List (String × β)) (k : String) : Option β :=
  match m with
  | [] => none
  | (k', v) :: rest => if k' = k then some v else lookupKey rest k

/-- `d[k] = v`: overwrite in place when the key exists, append otherwise. -/
def setKey {β : Type} (m : List (String × β)) (k : String) (v : β) : List (String × β) :=
  match m with
  | [] => [(k, v)]
  | (k', v') :: rest => if k' = k then (k, v) :: rest else (k', v') :: setKey rest k v

/-- `del d[k]`: remove the entry for the key. -/
def delKey {β : Type} (m : List (String × β)) (k : String) : List (String × β) :=
  match m with
  | [] => []
  | (k', v') :: rest => if k' = k then rest else (k', v') :: delKey rest k

/-- Keys of a dict, in order. -/
def dictKeys {β : Type} (m : List (String × β)) : List String :=
  m.map Prod.fst

theorem lookupKey_setKey_self {β : Type} (m : List (String × β)) (k : String) (v : β) :
    lookupKey (setKey m k v) k = some v := by
  induction m with
  | nil => simp [setKey, lookupKey]
  | cons p rest ih =>
    obtain ⟨k0, v0⟩ := p
    by_cases h0 : k0 = k
    · simp [setKey, h0, lookupKey]
    · simp [setKey, h0, lookupKey, ih]

theorem lookupKey_setKey_ne {β : Type} (m : List (String × β)) (k k' : String) (v : β)
    (h : k' ≠ k) : lookupKey (setKey m k' v) k = lookupKey m k := by
  induction m with
  | nil => simp [setKey, lookupKey, h]
  | cons p rest ih =>
    obtain ⟨k0, v0⟩ := p
    by_cases h0 : k0 = k'
    · subst h0
      simp [setKey, lookupKey, h]
    · by_cases hk : k0 = k <;> simp [setKey, h0, lookupKey, hk, ih, Ne.symm h]

theorem setKey_of_lookup_none {β : Type} (m : List (String × β)) (k : String) (v : β)
    (h : lookupKey m k = none) : setKey m k v = m ++ [(k, v)] := by
  induction m with
  | nil => simp [setKey]
  | cons p rest ih =>
    obtain ⟨k0, v0⟩ := p
    by_cases h0 : k0 = k
    · simp [lookupKey, h0] at h
    · simp only [lookupKey, h0, if_false, ite_false] at h
      simp [setKey, h0, ih h]

theorem lookupKey_append_of_none {β : Type} (a b : List (String × β)) (k : String)
    (h : lookupKey a k = none) : lookupKey (a ++ b) k = lookupKey b k := by
  induction a with
  | nil => simp
  | cons p rest ih =>
    obtain ⟨k0, v0⟩ := p
    by_cases h0 : k0 = k
    · simp [lookupKey, h0] at h
    · simp only [lookupKey, h0, if_false, ite_false] at h
      simp [List.cons_append, lookupKey, h0, ih h]

theorem delKey_append_of_none {β : Type} (a b : List (String × β)) (k : String)
    (h : lookupKey a k = none) : delKey (a ++ b) k = a ++ delKey b k := by
  induction a with
  | nil => simp
  | cons p rest ih =>
    obtain ⟨k0, v0⟩ := p
    by_cases h0 : k0 = k
    · simp [lookupKey, h0] at h
    · simp only [lookupKey, h0, if_false, ite_false] at h
      simp [List.cons_append, delKey, h0, ih h]

theorem lookupKey_delKey_ne {β : Type} (m : List (String × β)) (k k' : String)
    (h : k' ≠ k) : lookupKey (delKey m k') k = lookupKey m k := by
  induction m with
  | nil => simp [delKey]
  | cons p rest ih =>
    obtain ⟨k0, v0⟩ := p
    by_cases h0 : k0 = k'
    · subst h0
      simp [delKey, lookupKey, h]
    · by_cases hk : k0 = k <;> simp [delKey, h0, lookupKey, hk, ih, Ne.symm h]

theorem dictKeys_cons {β : Type} (p : String × β) (rest : List (String × β)) :
    dictKeys (p :: rest) = p.1 :: dictKeys rest := rfl

theorem lookupKey_eq_none_of_not_mem {β : Type} (m : List (String × β)) (k : String)
    (h : k ∉ dictKeys m) : lookupKey m k = none := by
  induction m with
  | nil => rfl
  | cons p rest ih =>
    obtain ⟨k0, v0⟩ := p
    rw [dictKeys_cons] at h
    have h1 : k0 ≠ k := by
      intro hh
      exact h (List.mem_cons.mpr (Or.inl hh.symm))
    have h2 : k ∉ dictKeys rest := by
      intro hh
      exact h (List.mem_cons.mpr (Or.inr hh))
    simp [lookupKey, h1, ih h2]

theorem lookupKey_delKey_self {β : Type} (m : List (String × β)) (k : String)
    (h : (dictKeys m).Nodup) : lookupKey (delKey m k) k = none := by
  induction m with
  | nil => rfl
  | cons p rest ih =>
    obtain ⟨k0, v0⟩ := p
    rw [dictKeys_cons] at h
    rcases List.nodup_cons.mp h with ⟨hnm, hnd⟩
    by_cases h0 : k0 = k
    · subst h0
      simp only [delKey, ite_true]
      exact lookupKey_eq_none_of_not_mem rest k0 hnm
    · simp [delKey, h0, lookupKey, ih hnd]

theorem delKey_sublist {β : Type} (m : List (String × β)) (k : String) :
    (delKey m k).Sublist m := by
  induction m with
  | nil => simp [delKey]
  | cons p rest ih =>
    obtain ⟨k0, v0⟩ := p
    by_cases h0 : k0 = k
    · simp only [delKey, h0, ite_true]
      exact List.sublist_cons_self _ _
    · simp only [delKey, h0, ite_false]
      exact ih.cons₂ _

theorem dictKeys_delKey_nodup {β : Type} (m : List (String × β)) (k : String)
    (h : (dictKeys m).Nodup) : (dictKeys (delKey m k)).Nodup := by
  exact ((delKey_sublist m k).map Prod.fst).nodup h

theorem setKey_cons_eq {β : Type} (k : String) (v v0 : β) (rest : List (String × β)) :
    setKey ((k, v0) :: rest) k v = (k, v) :: rest := by
  simp [setKey]

theorem setKey_cons_ne {β : Type} (k k0 : String) (v : β) (v0 : β)
    (rest : List (String × β)) (h0 : k0 ≠ k) :
    setKey ((k0, v0) :: rest) k v = (k0, v0) :: setKey rest k v := by
  simp [setKey, h0]

theorem mem_dictKeys_setKey {β : Type} (m : List (String × β)) (k : String) (v : β)
    (x : String) (hx : x ∈ dictKeys (setKey m k v)) : x ∈ dictKeys m ∨ x = k := by
  induction m with
  | nil =>
    right
    simpa [setKey, dictKeys] using hx
  | cons p rest ih =>
    obtain ⟨k0, v0⟩ := p
    by_cases h0 : k0 = k
    · subst h0
      rw [setKey_cons_eq, dictKeys_cons] at hx
      rcases List.mem_cons.mp hx with hx | hx
      · right; exact hx
      · left
        rw [dictKeys_cons]
        exact List.mem_cons_of_mem _ hx
    · rw [setKey_cons_ne _ _ _ _ _ h0, dictKeys_cons] at hx
      rcases List.mem_cons.mp hx with hx | hx
      · left
        rw [dictKeys_cons]
        exact List.mem_cons.mpr (Or.inl hx)
      · rcases ih hx with hh | hh
        · left
          rw [dictKeys_cons]
          exact List.mem_cons_of_mem _ hh
        · right; exact hh

theorem dictKeys_setKey_nodup {β : Type} (m : List (String × β)) (k : String) (v : β)
    (h : (dictKeys m).Nodup) : (dictKeys (setKey m k v)).Nodup := by
  induction m with
  | nil => simp [setKey, dictKeys]
  | cons p rest ih =>
    obtain ⟨k0, v0⟩ := p
    rw [dictKeys_cons] at h
    rcases List.nodup_cons.mp h with ⟨hnm, hnd⟩
    by_cases h0 : k0 = k
    · subst h0
      rw [setKey_cons_eq, dictKeys_cons]
      exact List.nodup_cons.mpr ⟨hnm, hnd⟩
    · rw [setKey_cons_ne _ _ _ _ _ h0, dictKeys_cons]
      refine List.nodup_cons.mpr ⟨?_, ih hnd⟩
      intro hmem
      rcases mem_dictKeys_setKey rest k v k0 hmem with hh | hh
      · exact hnm hh
      · exact h0 hh

/-!
## Wire model: `serialize` / `deserialize` / `get_vars`

`Task.serialize` (task.py lines 240-250) extends `Base.serialize`'s
attribute mapping with the raw `self._dep_chain` list and, when present,
the recursively serialized block and role.  `Task.deserialize`
(lines 252-269) reconstructs the nested Block/Role sub-objects first and
then delegates the remaining mapping to `Base.deserialize`.
`Base`, `Block` and `Role` are declared outside task.py and are
modelled from the spec.

A serialized dict entry is either a plain data payload or the raw
in-memory object list that line 242 (`data['dep_chain'] =
self._dep_chain`) stores without serializing it.
-/

/-- Modelled from the spec: a `Block` — "a composite scope grouping
ordered tasks"; reduced to its attribute mapping, which is what its
serialization carries. -/
structure Block where
  battrs : List (String × Value)
deriving Repr

/-- Modelled from the spec: `Block.serialize` produces the block's
self-contained attribute mapping. -/
def Block.serialize (b : Block) : Value := Value.vmap b.battrs

/-- Modelled from the spec: `Block.deserialize` is the exact inverse of
`Block.serialize`, restoring the block from its payload. -/
def Block.deserialize (d : Value) : Block :=
  match d with
  | Value.vmap m => ⟨m⟩
  | _ => ⟨[]⟩

/-- Modelled from the spec: a `Role` — "a reusable named collection of
tasks/defaults"; reduced to its attribute mapping. -/
structure Role where
  rattrs : List (String × Value)
deriving Repr

/-- Modelled from the spec: `Role.serialize` produces the role's
self-contained attribute mapping. -/
def Role.serialize (r : Role) : Value := Value.vmap r.rattrs

/-- Modelled from the spec: `Role.deserialize` is the exact inverse of
`Role.serialize`. -/
def Role.deserialize (d : Value) : Role :=
  match d with
  | Value.vmap m => ⟨m⟩
  | _ => ⟨[]⟩

/-- A live ancestor-scope object sitting in `self._dep_chain`, with the
serialization capability the spec says `serialize` applies to it. -/
structure ScopeObj where
  sattrs : List (String × Value)
deriving Repr

/-- Modelled from the spec: recursive serialization of a dependency-chain
ancestor scope into a self-contained payload. -/
def ScopeObj.serialize (s : ScopeObj) : Value := Value.vmap s.sattrs

/-- One entry of a serialized task mapping: either a plain serialized
payload, or a raw list of live scope objects (what task.py line 242
stores for `dep_chain`). -/
inductive WEntry where
  | payload : Value → WEntry
  | objList : List ScopeObj → WEntry
deriving Repr

/-- Python truthiness of a stored entry. -/
def WEntry.truthy : WEntry → Bool
  | WEntry.payload v => pyTruthy v
  | WEntry.objList l => !l.isEmpty

/-- A serialized task mapping. -/
abbrev WDict := List (String × WEntry)

/-- The state of a `Task` relevant to the serialization contract: the
attribute storage kept by `Base` (modelled from the spec as a
name-to-value mapping), the optional enclosing block, the optional role,
and the dependency chain of live ancestor scopes. -/
structure TaskW where
  attrs : List (String × Value)
  block : Option Block
  role : Option Role
  dep_chain : List ScopeObj
deriving Repr

/-- Modelled from the spec: `Base.serialize` produces the mapping of
every attribute, public and private, as plain payloads. -/
def baseSerialize (t : TaskW) : WDict :=
  t.attrs.map (fun p => (p.1, WEntry.payload p.2))

/-- The plain payload entries of a serialized mapping (the scalar
attribute part, as opposed to raw object references). -/
def payloadEntries (data : WDict) : List (String × Value) :=
  data.filterMap (fun p =>
    match p.2 with
    | WEntry.payload v => some (p.1, v)
    | WEntry.objList _ => none)

/-- Modelled from the spec: `Base.deserialize` restores the scalar
attributes of the task from the plain payload entries of the mapping. -/
def baseDeserialize (t : TaskW) (data : WDict) : TaskW :=
  { t with attrs := payloadEntries data }

/-- `Task.serialize` (task.py lines 240-250): the base attribute mapping,
then `data['dep_chain'] = self._dep_chain` (the raw object list), then
the recursively serialized block and role when present. -/
def TaskW.serialize (t : TaskW) : WDict :=
  let data := baseSerialize t
  let data := setKey data "dep_chain" (WEntry.objList t.dep_chain)
  let data := match t.block with
    | some b => setKey data "block" (WEntry.payload b.serialize)
    | none => data
  match t.role with
  | some r => setKey data "role" (WEntry.payload r.serialize)
  | none => data

/-- `Task.deserialize` (task.py lines 252-269): take the dependency chain
back from `data.get('dep_chain', [])`; when the `block` payload is
present and truthy, rebuild a fresh `Block` from it and delete the key;
likewise for `role`; then hand the remaining mapping to
`Base.deserialize` for the scalar attributes. -/
def TaskW.deserialize (t : TaskW) (data : WDict) : TaskW :=
  let dep_chain := match lookupKey data "dep_chain" with
    | some (WEntry.objList l) => l
    | _ => []
  let block_data := match lookupKey data "block" with
    | some (WEntry.payload v) => some v
    | _ => none
  let stB : Option Block × WDict := match block_data with
    | some v =>
      if pyTruthy v then (some (Block.deserialize v), delKey data "block")
      else (t.block, data)
    | none => (t.block, data)
  let role_data := match lookupKey stB.2 "role" with
    | some (WEntry.payload v) => some v
    | _ => none
  let stR : Option Role × WDict := match role_data with
    | some v =>
      if pyTruthy v then (some (Role.deserialize v), delKey stB.2 "role")
      else (t.role, stB.2)
    | none => (t.role, stB.2)
  baseDeserialize
    { t with dep_chain := dep_chain, block := stB.1, role := stR.1 } stR.2

/-- `Task.__init__` with no arguments (task.py lines 98-106): block, role
and dependency chain empty; the attribute storage starts from the
schema defaults (instantiated by `Base.__init__`, modelled from the spec
as a given default mapping). -/
def freshTask (defaults : List (String × Value)) : TaskW :=
  { attrs := defaults, block := none, role := none, dep_chain := [] }

/-- `Task.get_vars` (task.py lines 205-211): the full serialized mapping
with the `tags` and `when` entries deleted when present. -/
def TaskW.get_vars (t : TaskW) : WDict :=
  let all_vars := t.serialize
  let all_vars := if (lookupKey all_vars "tags").isSome then delKey all_vars "tags" else all_vars
  if (lookupKey all_vars "when").isSome then delKey all_vars "when" else all_vars

theorem payloadEntries_append (a b : WDict) :
    payloadEntries (a ++ b) = payloadEntries a ++ payloadEntries b := by
  simp [payloadEntries, List.filterMap_append]

theorem payloadEntries_baseSerialize (t : TaskW) :
    payloadEntries (baseSerialize t) = t.attrs := by
  unfold payloadEntries baseSerialize
  induction t.attrs with
  | nil => rfl
  | cons p rest ih =>
    obtain ⟨k0, v0⟩ := p
    simp only [List.map_cons, List.filterMap_cons, ih]

theorem payloadEntries_nil : payloadEntries [] = [] := rfl

theorem payloadEntries_cons_obj (k : String) (l : List ScopeObj) (rest : WDict) :
    payloadEntries ((k, WEntry.objList l) :: rest) = payloadEntries rest := by
  simp [payloadEntries]

theorem payloadEntries_cons_payload (k : String) (v : Value) (rest : WDict) :
    payloadEntries ((k, WEntry.payload v) :: rest) = (k, v) :: payloadEntries rest := by
  simp [payloadEntries]

theorem lookupKey_baseSerialize (t : TaskW) (k : String) :
    lookupKey (baseSerialize t) k = (lookupKey t.attrs k).map WEntry.payload := by
  unfold baseSerialize
  induction t.attrs with
  | nil => rfl
  | cons p rest ih =>
    obtain ⟨k0, v0⟩ := p
    by_cases h0 : k0 = k <;> simp [lookupKey, h0, ih]

theorem dictKeys_baseSerialize (t : TaskW) :
    dictKeys (baseSerialize t) = dictKeys t.attrs := by
  simp [dictKeys, baseSerialize]

theorem Block_deserialize_serialize (b : Block) :
    Block.deserialize b.serialize = b := by
  cases b
  rfl

theorem Role_deserialize_serialize (r : Role) :
    Role.deserialize r.serialize = r := by
  cases r
  rfl

theorem deserialize_serialize_eq (defaults : List (String × Value)) (t : TaskW)
    (hdep : lookupKey t.attrs "dep_chain" = none)
    (hblk : lookupKey t.attrs "block" = none)
    (hrole : lookupKey t.attrs "role" = none)
    (hb : ∀ b : Block, t.block = some b → b.battrs ≠ [])
    (hr : ∀ r : Role, t.role = some r → r.rattrs ≠ []) :
    (freshTask defaults).deserialize t.serialize = t := by
  obtain ⟨attrs, blk, rl, ch⟩ := t
  simp only at hdep hblk hrole hb hr
  have hB_dep : lookupKey (baseSerialize ⟨attrs, blk, rl, ch⟩) "dep_chain" = none := by
    rw [lookupKey_baseSerialize]
    simp [hdep]
  have hB_blk : lookupKey (baseSerialize ⟨attrs, blk, rl, ch⟩) "block" = none := by
    rw [lookupKey_baseSerialize]
    simp [hblk]
  have hB_role : lookupKey (baseSerialize ⟨attrs, blk, rl, ch⟩) "role" = none := by
    rw [lookupKey_baseSerialize]
    simp [hrole]
  cases blk with
  | none =>
    cases rl with
    | none =>
      have hser : TaskW.serialize ⟨attrs, none, none, ch⟩ =
          baseSerialize ⟨attrs, none, none, ch⟩ ++ [("dep_chain", WEntry.objList ch)] := by
        simp only [TaskW.serialize]
        rw [setKey_of_lookup_none _ _ _ hB_dep]
      have e1 : lookupKey (baseSerialize ⟨attrs, none, none, ch⟩ ++
          [("dep_chain", WEntry.objList ch)]) "dep_chain" = some (WEntry.objList ch) := by
        rw [lookupKey_append_of_none _ _ _ hB_dep]
        simp [lookupKey]
      have e2 : lookupKey (baseSerialize ⟨attrs, none, none, ch⟩ ++
          [("dep_chain", WEntry.objList ch)]) "block" = none := by
        rw [lookupKey_append_of_none _ _ _ hB_blk]
        simp [lookupKey]
      have e3 : lookupKey (baseSerialize ⟨attrs, none, none, ch⟩ ++
          [("dep_chain", WEntry.objList ch)]) "role" = none := by
        rw [lookupKey_append_of_none _ _ _ hB_role]
        simp [lookupKey]
      rw [hser]
      simp only [TaskW.deserialize, e1, e2, e3]
      simp [baseDeserialize, payloadEntries_append, payloadEntries_baseSerialize,
        payloadEntries_nil, payloadEntries_cons_obj, payloadEntries_cons_payload, freshTask]
    | some r =>
      have hrat : r.rattrs ≠ [] := hr r rfl
      have htr : pyTruthy r.serialize = true := by
        cases hrr : r.rattrs with
        | nil => exact absurd hrr hrat
        | cons x xs => simp [Role.serialize, pyTruthy, hrr]
      have e0 : lookupKey (baseSerialize ⟨attrs, none, some r, ch⟩ ++
          [("dep_chain", WEntry.objList ch)]) "role" = none := by
        rw [lookupKey_append_of_none _ _ _ hB_role]
        simp [lookupKey]
      have hser : TaskW.serialize ⟨attrs, none, some r, ch⟩ =
          baseSerialize ⟨attrs, none, some r, ch⟩ ++
            [("dep_chain", WEntry.objList ch), ("role", WEntry.payload r.serialize)] := by
        simp only [TaskW.serialize]
        rw [setKey_of_lookup_none _ _ _ hB_dep, setKey_of_lookup_none _ _ _ e0]
        simp
      have e1 : lookupKey (baseSerialize ⟨attrs, none, some r, ch⟩ ++
          [("dep_chain", WEntry.objList ch), ("role", WEntry.payload r.serialize)])
          "dep_chain" = some (WEntry.objList ch) := by
        rw [lookupKey_append_of_none _ _ _ hB_dep]
        simp [lookupKey]
      have e2 : lookupKey (baseSerialize ⟨attrs, none, some r, ch⟩ ++
          [("dep_chain", WEntry.objList ch), ("role", WEntry.payload r.serialize)])
          "block" = none := by
        rw [lookupKey_append_of_none _ _ _ hB_blk]
        simp [lookupKey]
      have e4 : lookupKey (baseSerialize ⟨attrs, none, some r, ch⟩ ++
          [("dep_chain", WEntry.objList ch), ("role", WEntry.payload r.serialize)])
          "role" = some (WEntry.payload r.serialize) := by
        rw [lookupKey_append_of_none _ _ _ hB_role]
        simp [lookupKey]
      have e5 : delKey (baseSerialize ⟨attrs, none, some r, ch⟩ ++
          [("dep_chain", WEntry.objList ch), ("role", WEntry.payload r.serialize)])
          "role" = baseSerialize ⟨attrs, none, some r, ch⟩ ++
            [("dep_chain", WEntry.objList ch)] := by
        rw [delKey_append_of_none _ _ _ hB_role]
        simp [delKey]
      rw [hser]
      simp only [TaskW.deserialize, e1, e2, e4, e5, htr, if_true]
      simp [baseDeserialize, payloadEntries_append, payloadEntries_baseSerialize,
        payloadEntries_nil, payloadEntries_cons_obj, payloadEntries_cons_payload, freshTask, Role_deserialize_serialize]
  | some b =>
    have hbat : b.battrs ≠ [] := hb b rfl
    have htb : pyTruthy b.serialize = true := by
      cases hbb : b.battrs with
      | nil => exact absurd hbb hbat
      | cons x xs => simp [Block.serialize, pyTruthy, hbb]
    cases rl with
    | none =>
      have e0 : lookupKey (baseSerialize ⟨attrs, some b, none, ch⟩ ++
          [("dep_chain", WEntry.objList ch)]) "block" = none := by
        rw [lookupKey_append_of_none _ _ _ hB_blk]
        simp [lookupKey]
      have hser : TaskW.serialize ⟨attrs, some b, none, ch⟩ =
          baseSerialize ⟨attrs, some b, none, ch⟩ ++
            [("dep_chain", WEntry.objList ch), ("block", WEntry.payload b.serialize)] := by
        simp only [TaskW.serialize]
        rw [setKey_of_lookup_none _ _ _ hB_dep, setKey_of_lookup_none _ _ _ e0]
        simp
      have e1 : lookupKey (baseSerialize ⟨attrs, some b, none, ch⟩ ++
          [("dep_chain", WEntry.objList ch), ("block", WEntry.payload b.serialize)])
          "dep_chain" = some (WEntry.objList ch) := by
        rw [lookupKey_append_of_none _ _ _ hB_dep]
        simp [lookupKey]
      have e2 : lookupKey (baseSerialize ⟨attrs, some b, none, ch⟩ ++
          [("dep_chain", WEntry.objList ch), ("block", WEntry.payload b.serialize)])
          "block" = some (WEntry.payload b.serialize) := by
        rw [lookupKey_append_of_none _ _ _ hB_blk]
        simp [lookupKey]
      have e3 : delKey (baseSerialize ⟨attrs, some b, none, ch⟩ ++
          [("dep_chain", WEntry.objList ch), ("block", WEntry.payload b.serialize)])
          "block" = baseSerialize ⟨attrs, some b, none, ch⟩ ++
            [("dep_chain", WEntry.objList ch)] := by
        rw [delKey_append_of_none _ _ _ hB_blk]
        simp [delKey]
      have e4 : lookupKey (baseSerialize ⟨attrs, some b, none, ch⟩ ++
          [("dep_chain", WEntry.objList ch)]) "role" = none := by
        rw [lookupKey_append_of_none _ _ _ hB_role]
        simp [lookupKey]
      rw [hser]
      simp only [TaskW.deserialize, e1, e2, e3, e4, htb, if_true]
      simp [baseDeserialize, payloadEntries_append, payloadEntries_baseSerialize,
        payloadEntries_nil, payloadEntries_cons_obj, payloadEntries_cons_payload, freshTask, Block_deserialize_serialize]
    | some r =>
      have hrat : r.rattrs ≠ [] := hr r rfl
      have htr : pyTruthy r.serialize = true := by
        cases hrr : r.rattrs with
        | nil => exact absurd hrr hrat
        | cons x xs => simp [Role.serialize, pyTruthy, hrr]
      have e0 : lookupKey (baseSerialize ⟨attrs, some b, some r, ch⟩ ++
          [("dep_chain", WEntry.objList ch)]) "block" = none := by
        rw [lookupKey_append_of_none _ _ _ hB_blk]
        simp [lookupKey]
      have e0' : lookupKey (baseSerialize ⟨attrs, some b, some r, ch⟩ ++
          [("dep_chain", WEntry.objList ch), ("block", WEntry.payload b.serialize)])
          "role" = none := by
        rw [lookupKey_append_of_none _ _ _ hB_role]
        simp [lookupKey]
      have hser : TaskW.serialize ⟨attrs, some b, some r, ch⟩ =
          baseSerialize ⟨attrs, some b, some r, ch⟩ ++
            [("dep_chain", WEntry.objList ch), ("block", WEntry.payload b.serialize),
              ("role", WEntry.payload r.serialize)] := by
        simp only [TaskW.serialize]
        rw [setKey_of_lookup_none _ _ _ hB_dep]
        have h1 : setKey (baseSerialize ⟨attrs, some b, some r, ch⟩ ++
            [("dep_chain", WEntry.objList ch)]) "block" (WEntry.payload b.serialize) =
            baseSerialize ⟨attrs, some b, some r, ch⟩ ++
              [("dep_chain", WEntry.objList ch), ("block", WEntry.payload b.serialize)] := by
          rw [setKey_of_lookup_none _ _ _ e0]
          simp
        rw [h1, setKey_of_lookup_none _ _ _ e0']
        simp
      have e1 : lookupKey (baseSerialize ⟨attrs, some b, some r, ch⟩ ++
          [("dep_chain", WEntry.objList ch), ("block", WEntry.payload b.serialize),
            ("role", WEntry.payload r.serialize)])
          "dep_chain" = some (WEntry.objList ch) := by
        rw [lookupKey_append_of_none _ _ _ hB_dep]
        simp [lookupKey]
      have e2 : lookupKey (baseSerialize ⟨attrs, some b, some r, ch⟩ ++
          [("dep_chain", WEntry.objList ch), ("block", WEntry.payload b.serialize),
            ("role", WEntry.payload r.serialize)])
          "block" = some (WEntry.payload b.serialize) := by
        rw [lookupKey_append_of_none _ _ _ hB_blk]
        simp [lookupKey]
      have e3 : delKey (baseSerialize ⟨attrs, some b, some r, ch⟩ ++
          [("dep_chain", WEntry.objList ch), ("block", WEntry.payload b.serialize),
            ("role", WEntry.payload r.serialize)])
          "block" = baseSerialize ⟨attrs, some b, some r, ch⟩ ++
            [("dep_chain", WEntry.objList ch), ("role", WEntry.payload r.serialize)] := by
        rw [delKey_append_of_none _ _ _ hB_blk]
        simp [delKey]
      have e4 : lookupKey (baseSerialize ⟨attrs, some b, some r, ch⟩ ++
          [("dep_chain", WEntry.objList ch), ("role", WEntry.payload r.serialize)])
          "role" = some (WEntry.payload r.serialize) := by
        rw [lookupKey_append_of_none _ _ _ hB_role]
        simp [lookupKey]
      have e5 : delKey (baseSerialize ⟨attrs, some b, some r, ch⟩ ++
          [("dep_chain", WEntry.objList ch), ("role", WEntry.payload r.serialize)])
          "role" = baseSerialize ⟨attrs, some b, some r, ch⟩ ++
            [("dep_chain", WEntry.objList ch)] := by
        rw [delKey_append_of_none _ _ _ hB_role]
        simp [delKey]
      rw [hser]
      simp only [TaskW.deserialize, e1, e2, e3, e4, e5, htb, htr, if_true]
      simp [baseDeserialize, payloadEntries_append, payloadEntries_baseSerialize,
        payloadEntries_nil, payloadEntries_cons_obj, payloadEntries_cons_payload, freshTask, Block_deserialize_serialize, Role_deserialize_serialize]

theorem isSome_false_eq_none {α : Type} (o : Option α) (h : ¬ o.isSome = true) : o = none := by
  cases o with
  | none => rfl
  | some v => simp at h

theorem dictKeys_serialize_nodup (t : TaskW) (h : (dictKeys t.attrs).Nodup) :
    (dictKeys t.serialize).Nodup := by
  have h0 : (dictKeys (baseSerialize t)).Nodup := by
    rw [dictKeys_baseSerialize]
    exact h
  have h1 := dictKeys_setKey_nodup (baseSerialize t) "dep_chain" (WEntry.objList t.dep_chain) h0
  cases hb : t.block with
  | none =>
    cases hr : t.role with
    | none => simpa [TaskW.serialize, hb, hr] using h1
    | some r =>
      simp only [TaskW.serialize, hb, hr]
      exact dictKeys_setKey_nodup _ _ _ h1
  | some b =>
    have h2 := dictKeys_setKey_nodup
      (setKey (baseSerialize t) "dep_chain" (WEntry.objList t.dep_chain))
      "block" (WEntry.payload b.serialize) h1
    cases hr : t.role with
    | none => simpa [TaskW.serialize, hb, hr] using h2
    | some r =>
      simp only [TaskW.serialize, hb, hr]
      exact dictKeys_setKey_nodup _ _ _ h2

/-- Claim C2: serializing a task and then deserializing the payload onto
a freshly constructed task reproduces identical `get_vars()` output and
structurally equal nested block and role; the nested sub-objects are
rebuilt first and the scalar attributes restored, and deserialization
also succeeds when the `block` / `role` keys are absent from the mapping
(the `t.block = none` / `t.role = none` cases). -/
theorem task_serialize_roundtrip (defaults : List (String × Value)) (t : TaskW)
    (hdep : lookupKey t.attrs "dep_chain" = none)
    (hblk : lookupKey t.attrs "block" = none)
    (hrole : lookupKey t.attrs "role" = none)
    (hb : ∀ b : Block, t.block = some b → b.battrs ≠ [])
    (hr : ∀ r : Role, t.role = some r → r.rattrs ≠ []) :
    ((freshTask defaults).deserialize t.serialize).get_vars = t.get_vars ∧
    ((freshTask defaults).deserialize t.serialize).block = t.block ∧
    ((freshTask defaults).deserialize t.serialize).role = t.role := by
  rw [deserialize_serialize_eq defaults t hdep hblk hrole hb hr]
  exact ⟨rfl, rfl, rfl⟩

/-- A concrete task instantiating the round-trip theorem. -/
def exTask : TaskW :=
  { attrs := [("name", Value.vstr "install nginx"),
      ("args", Value.vmap [("pkg", Value.vstr "nginx")]),
      ("tags", Value.vlist [Value.vstr "web"]),
      ("when", Value.vstr "ansible_os_family == Debian")],
    block := some ⟨[("bwhen", Value.vstr "x")]⟩,
    role := some ⟨[("role_name", Value.vstr "common")]⟩,
    dep_chain := [⟨[("sname", Value.vstr "outer")]⟩] }

theorem task_serialize_roundtrip_witness :
    ((freshTask []).deserialize exTask.serialize).get_vars = exTask.get_vars ∧
    ((freshTask []).deserialize exTask.serialize).block = exTask.block ∧
    ((freshTask []).deserialize exTask.serialize).role = exTask.role :=
  task_serialize_roundtrip [] exTask (by simp [exTask, lookupKey])
    (by simp [exTask, lookupKey])
    (by simp [exTask, lookupKey])
    (by
      intro b hbeq
      rw [show exTask.block = some ⟨[("bwhen", Value.vstr "x")]⟩ from rfl] at hbeq
      cases hbeq
      simp)
    (by
      intro r hreq
      rw [show exTask.role = some ⟨[("role_name", Value.vstr "common")]⟩ from rfl] at hreq
      cases hreq
      simp)

/-- A dependency-chain scope used in the C3 instances. -/
def cScope : ScopeObj := ⟨[("cname", Value.vstr "parent_block")]⟩

/-- The concrete task whose serialization refutes the claim that the
dependency chain is recursively serialized. -/
def cTask : TaskW :=
  { attrs := [("name", Value.vstr "t")], block := none, role := none,
    dep_chain := [cScope] }

/-- Claim C3 counterexample: on a concrete task with one dependency-chain
entry, `serialize` stores under `dep_chain` the raw list of live scope
objects (`data['dep_chain'] = self._dep_chain`, task.py line 242), which
is not the entry-wise recursively serialized payload the claim
describes. -/
theorem serialize_dep_chain_counterexample :
    lookupKey cTask.serialize "dep_chain" = some (WEntry.objList [cScope]) ∧
    lookupKey cTask.serialize "dep_chain" ≠
      some (WEntry.payload (Value.vlist ([cScope].map ScopeObj.serialize))) := by
  have h : lookupKey cTask.serialize "dep_chain" = some (WEntry.objList [cScope]) := by
    simp [cTask, TaskW.serialize, baseSerialize, setKey, lookupKey]
  refine ⟨h, ?_⟩
  rw [h]
  simp

/-- Claim C3 amended: `serialize()` stores the dependency chain as the
raw in-memory list of ancestor-scope objects, in its original order (not
as recursively serialized payloads), while the block and the role, when
present, are stored recursively serialized as nested self-contained
payloads. -/
theorem serialize_dep_chain_raw (t : TaskW) :
    lookupKey t.serialize "dep_chain" = some (WEntry.objList t.dep_chain) ∧
    (∀ b : Block, t.block = some b →
      lookupKey t.serialize "block" = some (WEntry.payload b.serialize)) ∧
    (∀ r : Role, t.role = some r →
      lookupKey t.serialize "role" = some (WEntry.payload r.serialize)) := by
  refine ⟨?_, ?_, ?_⟩
  · cases hb : t.block with
    | none =>
      cases hr : t.role with
      | none =>
        simp only [TaskW.serialize, hb, hr]
        exact lookupKey_setKey_self _ _ _
      | some r =>
        simp only [TaskW.serialize, hb, hr]
        rw [lookupKey_setKey_ne _ _ _ _ (by decide)]
        exact lookupKey_setKey_self _ _ _
    | some b =>
      cases hr : t.role with
      | none =>
        simp only [TaskW.serialize, hb, hr]
        rw [lookupKey_setKey_ne _ _ _ _ (by decide)]
        exact lookupKey_setKey_self _ _ _
      | some r =>
        simp only [TaskW.serialize, hb, hr]
        rw [lookupKey_setKey_ne _ _ _ _ (by decide), lookupKey_setKey_ne _ _ _ _ (by decide)]
        exact lookupKey_setKey_self _ _ _
  · intro b hbeq
    cases hr : t.role with
    | none =>
      simp only [TaskW.serialize, hbeq, hr]
      exact lookupKey_setKey_self _ _ _
    | some r =>
      simp only [TaskW.serialize, hbeq, hr]
      rw [lookupKey_setKey_ne _ _ _ _ (by decide)]
      exact lookupKey_setKey_self _ _ _
  · intro r hreq
    simp only [TaskW.serialize, hreq]
    exact lookupKey_setKey_self _ _ _

/-- The concrete task instantiating the amended C3 theorem. -/
def cTask2 : TaskW :=
  { attrs := [], block := some ⟨[("bk", Value.vnone)]⟩,
    role := some ⟨[("rk", Value.vnone)]⟩, dep_chain := [cScope] }

theorem serialize_dep_chain_raw_witness :
    lookupKey cTask2.serialize "dep_chain" = some (WEntry.objList cTask2.dep_chain) ∧
    lookupKey cTask2.serialize "block" =
      some (WEntry.payload (Block.serialize ⟨[("bk", Value.vnone)]⟩)) ∧
    lookupKey cTask2.serialize "role" =
      some (WEntry.payload (Role.serialize ⟨[("rk", Value.vnone)]⟩)) :=
  ⟨(serialize_dep_chain_raw cTask2).1,
    (serialize_dep_chain_raw cTask2).2.1 ⟨[("bk", Value.vnone)]⟩ rfl,
    (serialize_dep_chain_raw cTask2).2.2 ⟨[("rk", Value.vnone)]⟩ rfl⟩

/-- Claim C10: `get_vars()` is the full serialized attribute mapping
minus exactly the two selection-only entries `tags` and `when`; any
other key has the same value in `get_vars()` as in the serialized
form. -/
theorem get_vars_excludes_tags_when (t : TaskW) (k : String)
    (hnd : (dictKeys t.attrs).Nodup) (hk1 : k ≠ "tags") (hk2 : k ≠ "when") :
    lookupKey t.get_vars "tags" = none ∧
    lookupKey t.get_vars "when" = none ∧
    lookupKey t.get_vars k = lookupKey t.serialize k := by
  have hS : (dictKeys t.serialize).Nodup := dictKeys_serialize_nodup t hnd
  simp only [TaskW.get_vars]
  by_cases h1 : (lookupKey t.serialize "tags").isSome = true
  · rw [if_pos h1]
    have ha1 : lookupKey (delKey t.serialize "tags") "tags" = none :=
      lookupKey_delKey_self _ _ hS
    have hnd1 : (dictKeys (delKey t.serialize "tags")).Nodup :=
      dictKeys_delKey_nodup _ _ hS
    by_cases h2 : (lookupKey (delKey t.serialize "tags") "when").isSome = true
    · rw [if_pos h2]
      refine ⟨?_, lookupKey_delKey_self _ _ hnd1, ?_⟩
      · rw [lookupKey_delKey_ne _ _ _ (by decide)]
        exact ha1
      · rw [lookupKey_delKey_ne _ _ _ (Ne.symm hk2), lookupKey_delKey_ne _ _ _ (Ne.symm hk1)]
    · rw [if_neg h2]
      exact ⟨ha1, isSome_false_eq_none _ h2, lookupKey_delKey_ne _ _ _ (Ne.symm hk1)⟩
  · rw [if_neg h1]
    have ha1 : lookupKey t.serialize "tags" = none := isSome_false_eq_none _ h1
    by_cases h2 : (lookupKey t.serialize "when").isSome = true
    · rw [if_pos h2]
      refine ⟨?_, lookupKey_delKey_self _ _ hS, lookupKey_delKey_ne _ _ _ (Ne.symm hk2)⟩
      rw [lookupKey_delKey_ne _ _ _ (by decide)]
      exact ha1
    · rw [if_neg h2]
      exact ⟨ha1, isSome_false_eq_none _ h2, rfl⟩

/-- A concrete task instantiating the `get_vars` theorem. -/
def exTask10 : TaskW :=
  { attrs := [("name", Value.vstr "n"), ("tags", Value.vlist []),
      ("when", Value.vnone), ("register", Value.vstr "out")],
    block := none, role := none, dep_chain := [] }

theorem get_vars_excludes_tags_when_witness :
    lookupKey exTask10.get_vars "tags" = none ∧
    lookupKey exTask10.get_vars "when" = none ∧
    lookupKey exTask10.get_vars "register" = lookupKey exTask10.serialize "register" :=
  get_vars_excludes_tags_when exTask10 "register"
    (by simp [exTask10, dictKeys]) (by decide) (by decide)

/-!
## Normalization model: `munge`

`Task.munge` (task.py lines 154-189) normalizes a raw task mapping.
The `ModuleArgsParser` collaborator is external to task.py; following
the spec's design note, normalization is modelled as a pure function of
the raw mapping, the lookup-plugin registry snapshot, and the parser's
result triple `(action, args, delegate_to)`.  The loop check at line
184 is `k.replace("with_", "") in lookup_loader`: Python's `str.replace`
removes every occurrence of the substring, not just a prefix.
-/

/-- The character-level effect of Python's `k.replace("with_", "")`:
remove every non-overlapping occurrence of `with_`, scanning left to
right. -/
def replaceWithChars : List Char → List Char
  | [] => []
  | 'w' :: 'i' :: 't' :: 'h' :: '_' :: rest => replaceWithChars rest
  | c :: cs => c :: replaceWithChars cs

/-- Python's `k.replace("with_", "")` (task.py lines 148 and 184). -/
def pyReplaceWith (k : String) : String :=
  String.mk (replaceWithChars k.data)

/-- `x is None` in Python. -/
def Value.isNoneV : Value → Bool
  | Value.vnone => true
  | _ => false

/-- `d.get(k)`: the stored value, or `None` when the key is absent. -/
def pyGet (m : List (String × Value)) (k : String) : Value :=
  match lookupKey m k with
  | some v => v
  | none => Value.vnone

/-- `Task._munge_loop` (task.py lines 145-152): store the stripped
lookup-plugin name under `loop` and the raw value under `loop_args`,
unless the `loop` slot already holds a non-None value, in which case the
duplicate-loop error is raised. -/
def munge_loop (new_ds : List (String × Value)) (k : String) (v : Value) :
    Except String (List (String × Value)) :=
  let loop_name := pyReplaceWith k
  if (pyGet new_ds "loop").isNoneV then
    Except.ok (setKey (setKey new_ds "loop" (Value.vstr loop_name)) "loop_args" v)
  else
    Except.error ("duplicate loop in task: " ++ loop_name)

/-- The reserved keys skipped by the munge loop (task.py line 180):
`action`, `local_action`, `args`, `delegate_to`, the parsed action name
itself, and `shell`. -/
def skipKey (action : String) (k : String) : Bool :=
  k = "action" || k = "local_action" || k = "args" || k = "delegate_to" ||
    k = action || k = "shell"

/-- One iteration of the `for (k,v) in ds.iteritems()` loop of
`Task.munge` (task.py lines 179-187), with a raised exception modelled
as an absorbing error state. -/
def mungeStep (registry : List String) (action : String)
    (acc : Except String (List (String × Value))) (kv : String × Value) :
    Except String (List (String × Value)) :=
  match acc with
  | Except.error e => Except.error e
  | Except.ok new_ds =>
    if skipKey action kv.1 then Except.ok new_ds
    else if pyReplaceWith kv.1 ∈ registry then munge_loop new_ds kv.1 kv.2
    else Except.ok (setKey new_ds kv.1 kv.2)

/-- The canonical mapping `munge` starts from (task.py lines 175-177):
the parser's action, args and delegate_to. -/
def mungeInit (action : String) (args delegate_to : Value) : List (String × Value) :=
  setKey (setKey (setKey [] "action" (Value.vstr action)) "args" args)
    "delegate_to" delegate_to

/-- `Task.munge` (task.py lines 154-189) as a pure function of the
registry snapshot, the parser results and the raw mapping. -/
def munge (registry : List String) (action : String) (args delegate_to : Value)
    (ds : List (String × Value)) : Except String (List (String × Value)) :=
  ds.foldl (mungeStep registry action) (Except.ok (mungeInit action args delegate_to))

/-- Analysis predicate: a raw entry that the munge loop recognizes as a
loop key (not reserved, and its stripped name is registered). -/
def loopKey (registry : List String) (action : String) (kv : String × Value) : Bool :=
  !skipKey action kv.1 && decide (pyReplaceWith kv.1 ∈ registry)

/-- The plain passthrough part of the munge loop: every non-reserved
key assigned in order, no loop handling. -/
def passThrough (action : String) (m : List (String × Value))
    (ds : List (String × Value)) : List (String × Value) :=
  ds.foldl (fun acc kv => if skipKey action kv.1 then acc else setKey acc kv.1 kv.2) m

theorem loopKey_eq_true (registry : List String) (action : String) (kv : String × Value) :
    loopKey registry action kv = true ↔
      (skipKey action kv.1 = false ∧ pyReplaceWith kv.1 ∈ registry) := by
  simp [loopKey, Bool.and_eq_true, Bool.not_eq_true']

theorem pyGet_setKey_ne (m : List (String × Value)) (k k' : String) (v : Value)
    (h : k' ≠ k) : pyGet (setKey m k' v) k = pyGet m k := by
  simp [pyGet, lookupKey_setKey_ne _ _ _ _ h]

theorem mungeStep_skip (registry : List String) (action : String)
    (m : List (String × Value)) (k : String) (v : Value)
    (hs : skipKey action k = true) :
    mungeStep registry action (Except.ok m) (k, v) = Except.ok m := by
  simp [mungeStep, hs]

theorem mungeStep_pass (registry : List String) (action : String)
    (m : List (String × Value)) (k : String) (v : Value)
    (hs : skipKey action k = false) (hm : pyReplaceWith k ∉ registry) :
    mungeStep registry action (Except.ok m) (k, v) = Except.ok (setKey m k v) := by
  simp [mungeStep, hs, hm]

theorem mungeStep_loop_ok (registry : List String) (action : String)
    (m : List (String × Value)) (k : String) (v : Value)
    (hs : skipKey action k = false) (hm : pyReplaceWith k ∈ registry)
    (hslot : (pyGet m "loop").isNoneV = true) :
    mungeStep registry action (Except.ok m) (k, v) =
      Except.ok (setKey (setKey m "loop" (Value.vstr (pyReplaceWith k))) "loop_args" v) := by
  simp [mungeStep, hs, hm, munge_loop, hslot]

theorem mungeStep_loop_err (registry : List String) (action : String)
    (m : List (String × Value)) (k : String) (v : Value)
    (hs : skipKey action k = false) (hm : pyReplaceWith k ∈ registry)
    (hslot : (pyGet m "loop").isNoneV = false) :
    mungeStep registry action (Except.ok m) (k, v) =
      Except.error ("duplicate loop in task: " ++ pyReplaceWith k) := by
  simp [mungeStep, hs, hm, munge_loop, hslot]

theorem foldl_mungeStep_error (registry : List String) (action : String)
    (ds : List (String × Value)) (e : String) :
    ds.foldl (mungeStep registry action) (Except.error e) = Except.error e := by
  induction ds with
  | nil => rfl
  | cons kv rest ih => simpa [List.foldl_cons, mungeStep] using ih

theorem passThrough_cons_skip (action : String) (m : List (String × Value))
    (k : String) (v : Value) (rest : List (String × Value))
    (hs : skipKey action k = true) :
    passThrough action m ((k, v) :: rest) = passThrough action m rest := by
  simp [passThrough, List.foldl_cons, hs]

theorem passThrough_cons_pass (action : String) (m : List (String × Value))
    (k : String) (v : Value) (rest : List (String × Value))
    (hs : skipKey action k = false) :
    passThrough action m ((k, v) :: rest) = passThrough action (setKey m k v) rest := by
  simp [passThrough, List.foldl_cons, hs]

theorem lookupKey_passThrough_of_not_mem (action : String) (m ds : List (String × Value))
    (key : String) (h : key ∉ dictKeys ds) :
    lookupKey (passThrough action m ds) key = lookupKey m key := by
  induction ds generalizing m with
  | nil => rfl
  | cons kv rest ih =>
    obtain ⟨k0, v0⟩ := kv
    rw [dictKeys_cons] at h
    have h1 : k0 ≠ key := fun hh => h (List.mem_cons.mpr (Or.inl hh.symm))
    have h2 : key ∉ dictKeys rest := fun hh => h (List.mem_cons.mpr (Or.inr hh))
    by_cases hs : skipKey action k0 = true
    · rw [passThrough_cons_skip _ _ _ _ _ hs]
      exact ih _ h2
    · rw [passThrough_cons_pass _ _ _ _ _ (by rwa [Bool.not_eq_true] at hs)]
      rw [ih _ h2]
      exact lookupKey_setKey_ne _ _ _ _ h1

theorem lookupKey_passThrough_mem (action : String) (m ds : List (String × Value))
    (k : String) (v : Value)
    (hnd : (dictKeys ds).Nodup) (hmem : (k, v) ∈ ds)
    (hs : skipKey action k = false) :
    lookupKey (passThrough action m ds) k = some v := by
  induction ds generalizing m with
  | nil => cases hmem
  | cons kv rest ih =>
    obtain ⟨k0, v0⟩ := kv
    rw [dictKeys_cons] at hnd
    rcases List.nodup_cons.mp hnd with ⟨hnm, hnd'⟩
    rcases List.mem_cons.mp hmem with heq | hmem'
    · cases heq
      rw [passThrough_cons_pass _ _ _ _ _ hs]
      rw [lookupKey_passThrough_of_not_mem _ _ _ _ hnm]
      exact lookupKey_setKey_self _ _ _
    · by_cases hsk : skipKey action k0 = true
      · rw [passThrough_cons_skip _ _ _ _ _ hsk]
        exact ih _ hnd' hmem'
      · rw [passThrough_cons_pass _ _ _ _ _ (by rwa [Bool.not_eq_true] at hsk)]
        exact ih _ hnd' hmem'

theorem fold_no_recognized (registry : List String) (action : String)
    (ds : List (String × Value)) (m : List (String × Value))
    (h : ∀ kv ∈ ds, loopKey registry action kv = false) :
    ds.foldl (mungeStep registry action) (Except.ok m) =
      Except.ok (passThrough action m ds) := by
  induction ds generalizing m with
  | nil => rfl
  | cons kv rest ih =>
    obtain ⟨k0, v0⟩ := kv
    have hh := h (k0, v0) (List.mem_cons_self _ _)
    have hrest : ∀ kv ∈ rest, loopKey registry action kv = false :=
      fun kv hkv => h kv (List.mem_cons_of_mem _ hkv)
    by_cases hs : skipKey action k0 = true
    · rw [List.foldl_cons, mungeStep_skip _ _ _ _ _ hs, ih _ hrest,
        passThrough_cons_skip _ _ _ _ _ hs]
    · have hs' : skipKey action k0 = false := by rwa [Bool.not_eq_true] at hs
      have hmr : pyReplaceWith k0 ∉ registry := by
        intro hmem
        rw [(loopKey_eq_true registry action (k0, v0)).mpr ⟨hs', hmem⟩] at hh
        cases hh
      rw [List.foldl_cons, mungeStep_pass _ _ _ _ _ hs' hmr, ih _ hrest,
        passThrough_cons_pass _ _ _ _ _ hs']

theorem fold_error_of_loop_set (registry : List String) (action : String)
    (ds : List (String × Value)) (m : List (String × Value))
    (hset : (pyGet m "loop").isNoneV = false)
    (hnl : "loop" ∉ dictKeys ds)
    (hrec : ∃ kv ∈ ds, loopKey registry action kv = true) :
    ∃ name, ds.foldl (mungeStep registry action) (Except.ok m) =
      Except.error ("duplicate loop in task: " ++ name) := by
  induction ds generalizing m with
  | nil =>
    obtain ⟨kv, hkv, _⟩ := hrec
    cases hkv
  | cons kv rest ih =>
    obtain ⟨k0, v0⟩ := kv
    rw [dictKeys_cons] at hnl
    have hnl1 : k0 ≠ "loop" := fun hh => hnl (List.mem_cons.mpr (Or.inl hh.symm))
    have hnl2 : "loop" ∉ dictKeys rest := fun hh => hnl (List.mem_cons.mpr (Or.inr hh))
    by_cases hk : loopKey registry action (k0, v0) = true
    · obtain ⟨hs, hm⟩ := (loopKey_eq_true registry action (k0, v0)).mp hk
      refine ⟨pyReplaceWith k0, ?_⟩
      rw [List.foldl_cons, mungeStep_loop_err _ _ _ _ _ hs hm hset,
        foldl_mungeStep_error]
    · have hrec' : ∃ kv ∈ rest, loopKey registry action kv = true := by
        obtain ⟨kv', hkv', hl'⟩ := hrec
        rcases List.mem_cons.mp hkv' with he | hm'
        · rw [he] at hl'
          exact absurd hl' hk
        · exact ⟨kv', hm', hl'⟩
      rw [List.foldl_cons]
      by_cases hs : skipKey action k0 = true
      · rw [mungeStep_skip _ _ _ _ _ hs]
        exact ih _ hset hnl2 hrec'
      · have hs' : skipKey action k0 = false := by rwa [Bool.not_eq_true] at hs
        have hmr : pyReplaceWith k0 ∉ registry := by
          intro hmem
          exact hk ((loopKey_eq_true registry action (k0, v0)).mpr ⟨hs', hmem⟩)
        rw [mungeStep_pass _ _ _ _ _ hs' hmr]
        have hset' : (pyGet (setKey m k0 v0) "loop").isNoneV = false := by
          rw [pyGet_setKey_ne _ _ _ _ hnl1]
          exact hset
        exact ih _ hset' hnl2 hrec'

theorem fold_two_recognized_error (registry : List String) (action : String)
    (ds : List (String × Value)) (m : List (String × Value))
    (hnl : "loop" ∉ dictKeys ds)
    (hslot : (pyGet m "loop").isNoneV = true)
    (h2 : 2 ≤ (ds.filter (loopKey registry action)).length) :
    ∃ name, ds.foldl (mungeStep registry action) (Except.ok m) =
      Except.error ("duplicate loop in task: " ++ name) := by
  induction ds generalizing m with
  | nil => simp at h2
  | cons kv rest ih =>
    obtain ⟨k0, v0⟩ := kv
    rw [dictKeys_cons] at hnl
    have hnl1 : k0 ≠ "loop" := fun hh => hnl (List.mem_cons.mpr (Or.inl hh.symm))
    have hnl2 : "loop" ∉ dictKeys rest := fun hh => hnl (List.mem_cons.mpr (Or.inr hh))
    by_cases hk : loopKey registry action (k0, v0) = true
    · obtain ⟨hs, hm⟩ := (loopKey_eq_true registry action (k0, v0)).mp hk
      rw [List.foldl_cons, mungeStep_loop_ok _ _ _ _ _ hs hm hslot]
      have hset : (pyGet (setKey (setKey m "loop" (Value.vstr (pyReplaceWith k0)))
          "loop_args" v0) "loop").isNoneV = false := by
        rw [pyGet_setKey_ne _ _ _ _ (by decide)]
        rw [pyGet, lookupKey_setKey_self]
        rfl
      have h1 : 1 ≤ (rest.filter (loopKey registry action)).length := by
        rw [List.filter_cons_of_pos hk, List.length_cons] at h2
        omega
      have hex : ∃ kv ∈ rest, loopKey registry action kv = true := by
        have hne : rest.filter (loopKey registry action) ≠ [] := by
          intro hh
          rw [hh] at h1
          simp at h1
        obtain ⟨x, hx⟩ := List.exists_mem_of_ne_nil _ hne
        rcases List.mem_filter.mp hx with ⟨hx1, hx2⟩
        exact ⟨x, hx1, hx2⟩
      exact fold_error_of_loop_set registry action rest _ hset hnl2 hex
    · have hkf : loopKey registry action (k0, v0) = false := by
        rwa [Bool.not_eq_true] at hk
      have h2' : 2 ≤ (rest.filter (loopKey registry action)).length := by
        rwa [List.filter_cons_of_neg (by simp [hkf])] at h2
      rw [List.foldl_cons]
      by_cases hs : skipKey action k0 = true
      · rw [mungeStep_skip _ _ _ _ _ hs]
        exact ih _ hnl2 hslot h2'
      · have hs' : skipKey action k0 = false := by rwa [Bool.not_eq_true] at hs
        have hmr : pyReplaceWith k0 ∉ registry := by
          intro hmem
          exact hk ((loopKey_eq_true registry action (k0, v0)).mpr ⟨hs', hmem⟩)
        rw [mungeStep_pass _ _ _ _ _ hs' hmr]
        have hslot' : (pyGet (setKey m k0 v0) "loop").isNoneV = true := by
          rw [pyGet_setKey_ne _ _ _ _ hnl1]
          exact hslot
        exact ih _ hnl2 hslot' h2'

theorem fold_le_one_ok (registry : List String) (action : String)
    (ds : List (String × Value)) (m : List (String × Value))
    (hnl : "loop" ∉ dictKeys ds)
    (hslot : (pyGet m "loop").isNoneV = true)
    (h1 : (ds.filter (loopKey registry action)).length ≤ 1) :
    ∃ out, ds.foldl (mungeStep registry action) (Except.ok m) = Except.ok out := by
  induction ds generalizing m with
  | nil => exact ⟨m, rfl⟩
  | cons kv rest ih =>
    obtain ⟨k0, v0⟩ := kv
    rw [dictKeys_cons] at hnl
    have hnl1 : k0 ≠ "loop" := fun hh => hnl (List.mem_cons.mpr (Or.inl hh.symm))
    have hnl2 : "loop" ∉ dictKeys rest := fun hh => hnl (List.mem_cons.mpr (Or.inr hh))
    by_cases hk : loopKey registry action (k0, v0) = true
    · obtain ⟨hs, hm⟩ := (loopKey_eq_true registry action (k0, v0)).mp hk
      rw [List.foldl_cons, mungeStep_loop_ok _ _ _ _ _ hs hm hslot]
      have h0 : (rest.filter (loopKey registry action)).length = 0 := by
        rw [List.filter_cons_of_pos hk, List.length_cons] at h1
        omega
      have hnone : ∀ kv ∈ rest, loopKey registry action kv = false := by
        intro kv hkv
        have hfe : rest.filter (loopKey registry action) = [] :=
          List.length_eq_zero.mp h0
        by_contra hc
        have : kv ∈ rest.filter (loopKey registry action) :=
          List.mem_filter.mpr ⟨hkv, by rwa [Bool.not_eq_false] at hc⟩
        rw [hfe] at this
        cases this
      rw [fold_no_recognized registry action rest _ hnone]
      exact ⟨_, rfl⟩
    · have hkf : loopKey registry action (k0, v0) = false := by
        rwa [Bool.not_eq_true] at hk
      have h1' : (rest.filter (loopKey registry action)).length ≤ 1 := by
        rwa [List.filter_cons_of_neg (by simp [hkf])] at h1
      rw [List.foldl_cons]
      by_cases hs : skipKey action k0 = true
      · rw [mungeStep_skip _ _ _ _ _ hs]
        exact ih _ hnl2 hslot h1'
      · have hs' : skipKey action k0 = false := by rwa [Bool.not_eq_true] at hs
        have hmr : pyReplaceWith k0 ∉ registry := by
          intro hmem
          exact hk ((loopKey_eq_true registry action (k0, v0)).mpr ⟨hs', hmem⟩)
        rw [mungeStep_pass _ _ _ _ _ hs' hmr]
        have hslot' : (pyGet (setKey m k0 v0) "loop").isNoneV = true := by
          rw [pyGet_setKey_ne _ _ _ _ hnl1]
          exact hslot
        exact ih _ hnl2 hslot' h1'

theorem fold_one_recognized (registry : List String) (action : String)
    (pre post : List (String × Value)) (k : String) (v : Value)
    (m : List (String × Value))
    (hpre : ∀ kv ∈ pre, loopKey registry action kv = false)
    (hpost : ∀ kv ∈ post, loopKey registry action kv = false)
    (hs : skipKey action k = false)
    (hm : pyReplaceWith k ∈ registry)
    (hslot : (pyGet m "loop").isNoneV = true)
    (hpl : "loop" ∉ dictKeys pre) :
    (pre ++ (k, v) :: post).foldl (mungeStep registry action) (Except.ok m) =
      Except.ok (passThrough action
        (setKey (setKey (passThrough action m pre) "loop"
          (Value.vstr (pyReplaceWith k))) "loop_args" v) post) := by
  rw [List.foldl_append, fold_no_recognized registry action pre m hpre]
  have hslot' : (pyGet (passThrough action m pre) "loop").isNoneV = true := by
    rw [pyGet, lookupKey_passThrough_of_not_mem _ _ _ _ hpl]
    rw [pyGet] at hslot
    exact hslot
  rw [List.foldl_cons, mungeStep_loop_ok _ _ _ _ _ hs hm hslot']
  exact fold_no_recognized registry action post _ hpost

theorem mungeInit_loop_none (action : String) (args delegate_to : Value) :
    (pyGet (mungeInit action args delegate_to) "loop").isNoneV = true := by
  rfl

theorem all_false_of_filter_nil {α : Type} (p : α → Bool) (l : List α)
    (h : (l.filter p).length = 0) : ∀ a ∈ l, p a = false := by
  intro a ha
  have hfe : l.filter p = [] := List.length_eq_zero.mp h
  by_contra hc
  have hmem : a ∈ l.filter p :=
    List.mem_filter.mpr ⟨ha, by rwa [Bool.not_eq_false] at hc⟩
  rw [hfe] at hmem
  cases hmem

theorem skipKey_false_parts (action k : String) (h : skipKey action k = false) :
    k ≠ "action" ∧ k ≠ "local_action" ∧ k ≠ "args" ∧ k ≠ "delegate_to" ∧
      k ≠ action ∧ k ≠ "shell" := by
  simp [skipKey] at h
  tauto

theorem lookupKey_mungeInit_other (action : String) (args delegate_to : Value)
    (k : String) (h1 : k ≠ "action") (h2 : k ≠ "args") (h3 : k ≠ "delegate_to") :
    lookupKey (mungeInit action args delegate_to) k = none := by
  have he : mungeInit action args delegate_to =
      [("action", Value.vstr action), ("args", args), ("delegate_to", delegate_to)] := rfl
  rw [he]
  simp [lookupKey, Ne.symm h1, Ne.symm h2, Ne.symm h3]

/-- Claim C5 counterexample: a concrete raw mapping with exactly one
recognized loop key (`with_items`, with plugin `items` registered) but
also a plain `loop` passthrough key; the passthrough pre-loads the
`loop` slot of the canonical mapping, so `_munge_loop` raises the
duplicate-loop error even though only one recognized loop key is
present — refuting "with at most one recognized loop key present, no
such error is raised". -/
theorem munge_single_loop_error_counterexample :
    ([("loop", Value.vstr "x"), ("with_items", Value.vstr "y")].filter
      (loopKey ["items"] "debug")).length = 1 ∧
    munge ["items"] "debug" (Value.vmap []) Value.vnone
      [("loop", Value.vstr "x"), ("with_items", Value.vstr "y")] =
      Except.error ("duplicate loop in task: items") :=
  ⟨rfl, rfl⟩

/-- Claim C5 amended: for a raw mapping that contains no literal `loop`
key (such a key pre-loads the loop slot through passthrough), munge
raises the duplicate-loop error iff the mapping contains two or more
recognized loop keys; with at most one recognized loop key it returns a
canonical mapping. -/
theorem munge_duplicate_loop_iff (registry : List String) (action : String)
    (args delegate_to : Value) (ds : List (String × Value))
    (hnl : "loop" ∉ dictKeys ds) :
    (∃ name, munge registry action args delegate_to ds =
        Except.error ("duplicate loop in task: " ++ name)) ↔
      2 ≤ (ds.filter (loopKey registry action)).length := by
  constructor
  · intro herr
    by_contra hlt
    have h1 : (ds.filter (loopKey registry action)).length ≤ 1 := by omega
    obtain ⟨out, hout⟩ := fold_le_one_ok registry action ds _ hnl
      (mungeInit_loop_none action args delegate_to) h1
    obtain ⟨name, hname⟩ := herr
    rw [munge, hout] at hname
    cases hname
  · intro h2
    obtain ⟨name, hname⟩ := fold_two_recognized_error registry action ds _ hnl
      (mungeInit_loop_none action args delegate_to) h2
    refine ⟨name, ?_⟩
    rw [munge]
    exact hname

theorem munge_duplicate_loop_iff_witness :
    ∃ name, munge ["items", "first_found"] "debug" (Value.vmap []) Value.vnone
      [("with_items", Value.vstr "a"), ("with_first_found", Value.vstr "b")] =
      Except.error ("duplicate loop in task: " ++ name) :=
  (munge_duplicate_loop_iff ["items", "first_found"] "debug" (Value.vmap [])
    Value.vnone [("with_items", Value.vstr "a"), ("with_first_found", Value.vstr "b")]
    (by decide)).mpr (by decide)

/-- Claim C4 counterexample: with the lookup-plugin name `items`
registered, the bare raw key `items` — which does not have the form
`with_<name>` — is converted to `loop`/`loop_args` instead of passing
through unchanged with its original key, because task.py line 184 tests
`k.replace("with_", "") in lookup_loader`, and `"items".replace("with_",
"")` is `"items"` itself. -/
theorem munge_bare_key_counterexample :
    munge ["items"] "debug" (Value.vmap []) Value.vnone [("items", Value.vstr "a,b")] =
      Except.ok [("action", Value.vstr "debug"), ("args", Value.vmap []),
        ("delegate_to", Value.vnone), ("loop", Value.vstr "items"),
        ("loop_args", Value.vstr "a,b")] ∧
    lookupKey [("action", Value.vstr "debug"), ("args", Value.vmap []),
      ("delegate_to", Value.vnone), ("loop", Value.vstr "items"),
      ("loop_args", Value.vstr "a,b")] "items" = none ∧
    ¬ ∃ name : String, "items" = "with_" ++ name := by
  refine ⟨rfl, rfl, ?_⟩
  rintro ⟨name, h⟩
  have hd : ("items" : String).data = ("with_" : String).data ++ name.data := by
    rw [h]
    rfl
  simp at hd

/-- Claim C4 amended: under munge, a non-reserved key of the raw mapping
is recognized as a loop key iff the string obtained by deleting every
occurrence of `with_` from it is a registered lookup-plugin name (hence
`with_items`, bare `items`, and `with_with_items` are all recognized
when `items` is registered, while a `with_<name>` key with unregistered
`<name>` is not); when munge succeeds, the recognized key is stored as
`loop` = stripped name and `loop_args` = its value and the key itself
does not reach the canonical mapping, while every other non-reserved
key passes through with its original key and value. -/
theorem munge_key_handling (registry : List String) (action : String)
    (args delegate_to : Value) (ds out : List (String × Value))
    (k : String) (v : Value)
    (hnd : (dictKeys ds).Nodup)
    (hloop : "loop" ∉ dictKeys ds)
    (hloopargs : "loop_args" ∉ dictKeys ds)
    (hok : munge registry action args delegate_to ds = Except.ok out)
    (hmem : (k, v) ∈ ds)
    (hskip : skipKey action k = false) :
    (pyReplaceWith k ∈ registry →
      lookupKey out "loop" = some (Value.vstr (pyReplaceWith k)) ∧
      lookupKey out "loop_args" = some v ∧
      lookupKey out k = none) ∧
    (pyReplaceWith k ∉ registry →
      lookupKey out k = some v) := by
  have hcount : (ds.filter (loopKey registry action)).length ≤ 1 := by
    by_contra hc
    have h2 : 2 ≤ (ds.filter (loopKey registry action)).length := by omega
    obtain ⟨name, hname⟩ := fold_two_recognized_error registry action ds _ hloop
      (mungeInit_loop_none action args delegate_to) h2
    rw [munge, hname] at hok
    cases hok
  have hkmem : k ∈ dictKeys ds := List.mem_map_of_mem Prod.fst hmem
  have hk_loop : k ≠ "loop" := fun hh => hloop (hh ▸ hkmem)
  have hk_loopargs : k ≠ "loop_args" := fun hh => hloopargs (hh ▸ hkmem)
  obtain ⟨hka, hkl, hkar, hkd, hkact, hksh⟩ := skipKey_false_parts action k hskip
  constructor
  · intro hreg
    have hkrec : loopKey registry action (k, v) = true :=
      (loopKey_eq_true registry action (k, v)).mpr ⟨hskip, hreg⟩
    obtain ⟨pre, post, hds⟩ := List.append_of_mem hmem
    subst hds
    rw [List.filter_append, List.filter_cons_of_pos hkrec, List.length_append,
      List.length_cons] at hcount
    have hpre0 : ∀ kv ∈ pre, loopKey registry action kv = false :=
      all_false_of_filter_nil _ _ (by omega)
    have hpost0 : ∀ kv ∈ post, loopKey registry action kv = false :=
      all_false_of_filter_nil _ _ (by omega)
    have hkeys : dictKeys (pre ++ (k, v) :: post) =
        dictKeys pre ++ k :: dictKeys post := by
      simp [dictKeys]
    rw [hkeys] at hnd hloop hloopargs
    have hloop_pre : "loop" ∉ dictKeys pre := fun hh =>
      hloop (List.mem_append.mpr (Or.inl hh))
    have hloop_post : "loop" ∉ dictKeys post := fun hh =>
      hloop (List.mem_append.mpr (Or.inr (List.mem_cons_of_mem _ hh)))
    have hloopargs_post : "loop_args" ∉ dictKeys post := fun hh =>
      hloopargs (List.mem_append.mpr (Or.inr (List.mem_cons_of_mem _ hh)))
    have hk_not : k ∉ dictKeys pre ++ dictKeys post :=
      (List.nodup_cons.mp (List.nodup_middle.mp hnd)).1
    have hk_pre : k ∉ dictKeys pre := fun hh => hk_not (List.mem_append.mpr (Or.inl hh))
    have hk_post : k ∉ dictKeys post := fun hh => hk_not (List.mem_append.mpr (Or.inr hh))
    have hshape := fold_one_recognized registry action pre post k v
      (mungeInit action args delegate_to) hpre0 hpost0 hskip hreg
      (mungeInit_loop_none action args delegate_to) hloop_pre
    rw [munge, hshape] at hok
    have hout : out = passThrough action
        (setKey (setKey (passThrough action (mungeInit action args delegate_to) pre)
          "loop" (Value.vstr (pyReplaceWith k))) "loop_args" v) post := by
      cases hok
      rfl
    subst hout
    refine ⟨?_, ?_, ?_⟩
    · rw [lookupKey_passThrough_of_not_mem _ _ _ _ hloop_post,
        lookupKey_setKey_ne _ _ _ _ (by decide),
        lookupKey_setKey_self]
    · rw [lookupKey_passThrough_of_not_mem _ _ _ _ hloopargs_post,
        lookupKey_setKey_self]
    · rw [lookupKey_passThrough_of_not_mem _ _ _ _ hk_post,
        lookupKey_setKey_ne _ _ _ _ (Ne.symm hk_loopargs),
        lookupKey_setKey_ne _ _ _ _ (Ne.symm hk_loop),
        lookupKey_passThrough_of_not_mem _ _ _ _ hk_pre]
      exact lookupKey_mungeInit_other action args delegate_to k hka hkar hkd
  · intro hreg
    have hkrecf : loopKey registry action (k, v) = false := by
      rw [loopKey]
      simp [hreg]
    by_cases hzero : (ds.filter (loopKey registry action)).length = 0
    · have hall : ∀ kv ∈ ds, loopKey registry action kv = false :=
        all_false_of_filter_nil _ _ hzero
      have hshape := fold_no_recognized registry action ds
        (mungeInit action args delegate_to) hall
      rw [munge, hshape] at hok
      have hout : out = passThrough action (mungeInit action args delegate_to) ds := by
        cases hok
        rfl
      subst hout
      exact lookupKey_passThrough_mem action _ ds k v hnd hmem hskip
    · have hone : (ds.filter (loopKey registry action)).length = 1 := by omega
      obtain ⟨kv1, hkv1⟩ := List.length_eq_one.mp hone
      have hkv1f : kv1 ∈ ds.filter (loopKey registry action) := by
        rw [hkv1]
        exact List.mem_cons_self _ _
      have hkv1mem : kv1 ∈ ds := (List.mem_filter.mp hkv1f).1
      have hkv1rec : loopKey registry action kv1 = true := (List.mem_filter.mp hkv1f).2
      obtain ⟨k1, v1⟩ := kv1
      obtain ⟨hs1, hm1⟩ := (loopKey_eq_true registry action (k1, v1)).mp hkv1rec
      obtain ⟨pre, post, hds⟩ := List.append_of_mem hkv1mem
      subst hds
      rw [List.filter_append, List.filter_cons_of_pos hkv1rec, List.length_append,
        List.length_cons] at hone
      have hpre0 : ∀ kv ∈ pre, loopKey registry action kv = false :=
        all_false_of_filter_nil _ _ (by omega)
      have hpost0 : ∀ kv ∈ post, loopKey registry action kv = false :=
        all_false_of_filter_nil _ _ (by omega)
      have hkeys : dictKeys (pre ++ (k1, v1) :: post) =
          dictKeys pre ++ k1 :: dictKeys post := by
        simp [dictKeys]
      rw [hkeys] at hnd hloop
      have hloop_pre : "loop" ∉ dictKeys pre := fun hh =>
        hloop (List.mem_append.mpr (Or.inl hh))
      have hnd_pp : (dictKeys pre ++ dictKeys post).Nodup :=
        (List.nodup_cons.mp (List.nodup_middle.mp hnd)).2
      have hnd_pre : (dictKeys pre).Nodup := hnd_pp.of_append_left
      have hnd_post : (dictKeys post).Nodup := hnd_pp.of_append_right
      have hdisj := List.disjoint_of_nodup_append hnd_pp
      have hshape := fold_one_recognized registry action pre post k1 v1
        (mungeInit action args delegate_to) hpre0 hpost0 hs1 hm1
        (mungeInit_loop_none action args delegate_to) hloop_pre
      rw [munge, hshape] at hok
      have hout : out = passThrough action
          (setKey (setKey (passThrough action (mungeInit action args delegate_to) pre)
            "loop" (Value.vstr (pyReplaceWith k1))) "loop_args" v1) post := by
        cases hok
        rfl
      subst hout
      have hkne : (k, v) ≠ (k1, v1) := by
        intro hh
        rw [hh, hkv1rec] at hkrecf
        cases hkrecf
      rcases List.mem_append.mp hmem with hin | hin
      · have hkpre : k ∈ dictKeys pre := List.mem_map_of_mem Prod.fst hin
        have hkpost : k ∉ dictKeys post := hdisj hkpre
        rw [lookupKey_passThrough_of_not_mem _ _ _ _ hkpost,
          lookupKey_setKey_ne _ _ _ _ (Ne.symm hk_loopargs),
          lookupKey_setKey_ne _ _ _ _ (Ne.symm hk_loop)]
        exact lookupKey_passThrough_mem action _ pre k v hnd_pre hin hskip
      · rcases List.mem_cons.mp hin with heq | hin'
        · exact absurd heq hkne
        · exact lookupKey_passThrough_mem action _ post k v hnd_post hin' hskip

/-- The canonical mapping munge produces on the witness input below. -/
def exMungeOut : List (String × Value) :=
  [("action", Value.vstr "debug"), ("args", Value.vmap []),
    ("delegate_to", Value.vnone), ("name", Value.vstr "t"),
    ("loop", Value.vstr "items"), ("loop_args", Value.vstr "x")]

theorem munge_key_handling_witness :
    (pyReplaceWith "with_items" ∈ ["items"] →
      lookupKey exMungeOut "loop" = some (Value.vstr (pyReplaceWith "with_items")) ∧
      lookupKey exMungeOut "loop_args" = some (Value.vstr "x") ∧
      lookupKey exMungeOut "with_items" = none) ∧
    (pyReplaceWith "with_items" ∉ ["items"] →
      lookupKey exMungeOut "with_items" = some (Value.vstr "x")) :=
  munge_key_handling ["items"] "debug" (Value.vmap []) Value.vnone
    [("name", Value.vstr "t"), ("with_items", Value.vstr "x")] exMungeOut
    "with_items" (Value.vstr "x")
    (by decide) (by decide) (by decide) rfl
    (List.mem_cons_of_mem _ (List.mem_cons_self _ _)) rfl

/-!
## Naming model: `get_name` and `_merge_kv`

`Task.get_name` (task.py lines 108-120) composes the human-readable
identifier from the role (when present), the `name` attribute, and the
action with flattened args via `Task._merge_kv` (lines 122-134).
Python string formatting (`"%s"`) and `strip()` are reproduced for the
value shapes that occur in task data.
-/

/-- Modelled from the spec: a role as seen by `get_name` —
`Role.get_name` returns the role's name. -/
structure NRole where
  rname : String
deriving Repr

def NRole.get_name (r : NRole) : String := r.rname

mutual

/-- Python `"%s" % v`: str() of a value.  Nested containers render
their elements with repr, strings quoted with `\x27`. -/
def pyStr : Value → String
  | Value.vnone => "None"
  | Value.vbool b => if b then "True" else "False"
  | Value.vint n => toString n
  | Value.vstr s => s
  | Value.vlist l => "[" ++ pyReprList l ++ "]"
  | Value.vmap m => "\x7b" ++ pyReprMap m ++ "\x7d"

/-- Python `repr(v)` for elements of containers. -/
def pyReprV : Value → String
  | Value.vnone => "None"
  | Value.vbool b => if b then "True" else "False"
  | Value.vint n => toString n
  | Value.vstr s => "\x27" ++ s ++ "\x27"
  | Value.vlist l => "[" ++ pyReprList l ++ "]"
  | Value.vmap m => "\x7b" ++ pyReprMap m ++ "\x7d"

/-- Comma-joined repr of list elements. -/
def pyReprList : List Value → String
  | [] => ""
  | [x] => pyReprV x
  | x :: xs => pyReprV x ++ ", " ++ pyReprList xs

/-- Comma-joined repr of dict entries. -/
def pyReprMap : List (String × Value) → String
  | [] => ""
  | [(k, v)] => "\x27" ++ k ++ "\x27: " ++ pyReprV v
  | (k, v) :: rest => "\x27" ++ k ++ "\x27: " ++ pyReprV v ++ ", " ++ pyReprMap rest

end

/-- Python `str.strip()` whitespace characters. -/
def pyIsSpace (c : Char) : Bool :=
  c = ' ' || c = '\t' || c = '\n' || c = '\r' || c = '\x0b' || c = '\x0c'

/-- Drop leading whitespace. -/
def dropLeading : List Char → List Char
  | [] => []
  | c :: cs => if pyIsSpace c then dropLeading cs else c :: cs

/-- Python `s.strip()`: drop leading and trailing whitespace. -/
def pyStripStr (s : String) : String :=
  String.mk ((dropLeading ((dropLeading s.data).reverse)).reverse)

/-- `k.startswith('_')` (task.py line 130). -/
def startsWithUnderscore (k : String) : Bool :=
  match k.data with
  | [] => false
  | c :: _ => c = '_'

/-- The `buf` accumulation of `_merge_kv`'s dict branch (task.py lines
128-132): `k=v ` pieces in mapping order, keys starting with `_`
skipped. -/
def mergeBuf : List (String × Value) → String
  | [] => ""
  | (k, v) :: rest =>
    if startsWithUnderscore k then mergeBuf rest
    else k ++ "=" ++ pyStr v ++ " " ++ mergeBuf rest

/-- `Task._merge_kv` (task.py lines 122-134): None → `""`, a string →
itself, a mapping → stripped `k=v` pieces; any other type falls off the
end of the Python function, implicitly returning None. -/
def merge_kv : Value → Option String
  | Value.vnone => some ""
  | Value.vstr s => some s
  | Value.vmap m => some (pyStripStr (mergeBuf m))
  | _ => none

/-- Python truthiness of the optional `name` attribute (None or the
empty string is falsy). -/
def nameTruthy : Option String → Bool
  | none => false
  | some s => s ≠ ""

/-- `"%s" % x` for an optional string; Python renders None as `"None"`. -/
def fmtOpt : Option String → String
  | none => "None"
  | some s => s

/-- The naming-relevant state of a `Task`: optional role object, `name`
and `action` attributes (None when unset), and `args`. -/
structure NTask where
  role : Option NRole
  name : Option String
  action : Option String
  args : Value

/-- `Task.get_name` (task.py lines 108-120): role-and-name, name alone,
role-and-flattened-action, or flattened action; a present role object is
always truthy in Python, `self.name` is truthy only when a non-empty
string. -/
def NTask.get_name (t : NTask) : String :=
  match t.role with
  | some r =>
    if nameTruthy t.name then r.get_name ++ " : " ++ fmtOpt t.name
    else r.get_name ++ " : " ++ fmtOpt t.action ++ " " ++ fmtOpt (merge_kv t.args)
  | none =>
    if nameTruthy t.name then fmtOpt t.name
    else fmtOpt t.action ++ " " ++ fmtOpt (merge_kv t.args)

/-- Claim C6 counterexample: with a role named `deploy` and explicit
name `start`, `get_name` uses the format string `"%s : %s"` (task.py
line 112) and returns `"deploy : start"` — a space on each side of the
colon — not the `"<role>: <name>"` (`"deploy: start"`) the claim
states. -/
theorem get_name_role_format_counterexample :
    NTask.get_name ⟨some ⟨"deploy"⟩, some "start", some "service", Value.vmap []⟩ =
      "deploy : start" ∧
    "deploy : start" ≠ "deploy: start" :=
  ⟨rfl, by decide⟩

/-- Claim C6 amended: `get_name` returns, in priority order,
`"<role> : <name>"` when both role and non-empty name are set,
`"<name>"` when only the name is set, `"<role> : <action>
<flattened-args>"` when a role is set and no name, and `"<action>
<flattened-args>"` otherwise (the role separator being `" : "`, not
`": "`); in particular name `Install nginx` with no role yields
`"Install nginx"`, and action `debug` with args `msg: hi`, no name and
no role yields `"debug msg=hi"`. -/
theorem get_name_cases (t : NTask) :
    (∀ r, t.role = some r → nameTruthy t.name = true →
      t.get_name = r.get_name ++ " : " ++ fmtOpt t.name) ∧
    (t.role = none → nameTruthy t.name = true → t.get_name = fmtOpt t.name) ∧
    (∀ r, t.role = some r → nameTruthy t.name = false →
      t.get_name = r.get_name ++ " : " ++ fmtOpt t.action ++ " " ++
        fmtOpt (merge_kv t.args)) ∧
    (t.role = none → nameTruthy t.name = false →
      t.get_name = fmtOpt t.action ++ " " ++ fmtOpt (merge_kv t.args)) ∧
    NTask.get_name ⟨none, some "Install nginx", none, Value.vmap []⟩ = "Install nginx" ∧
    NTask.get_name ⟨none, none, some "debug", Value.vmap [("msg", Value.vstr "hi")]⟩ =
      "debug msg=hi" := by
  refine ⟨?_, ?_, ?_, ?_, rfl, rfl⟩
  · intro r hr hn
    simp [NTask.get_name, hr, hn]
  · intro hr hn
    simp [NTask.get_name, hr, hn]
  · intro r hr hn
    simp [NTask.get_name, hr, hn]
  · intro hr hn
    simp [NTask.get_name, hr, hn]

theorem get_name_cases_witness :
    NTask.get_name ⟨some ⟨"deploy"⟩, some "start", none, Value.vmap []⟩ =
      NRole.get_name ⟨"deploy"⟩ ++ " : " ++ fmtOpt (some "start") :=
  (get_name_cases ⟨some ⟨"deploy"⟩, some "start", none, Value.vmap []⟩).1 ⟨"deploy"⟩ rfl rfl

/-!
## Reference model: per-instance defaults and `copy`

Aliasing facts (fresh defaults per constructed object; deep versus
shared references in `Task.copy`, task.py lines 222-238) are stated
over an explicit heap of allocated mutable Python objects: a reference
is an address into the heap, and two fields alias exactly when they
hold the same address.
-/

/-- A heap of allocated mutable objects (dicts, serialized block/role
contents, ...), each cell holding its current payload. -/
structure Heap where
  mem : List Value

/-- Number of allocated cells. -/
def Heap.size (h : Heap) : Nat := h.mem.length

/-- Allocate a new object, returning the extended heap and the fresh
address. -/
def Heap.alloc (h : Heap) (v : Value) : Heap × Nat :=
  (⟨h.mem ++ [v]⟩, h.mem.length)

/-- Read the object at an address. -/
def Heap.read (h : Heap) (a : Nat) : Value := h.mem.getD a Value.vnone

/-- Mutate the object at an address. -/
def Heap.write (h : Heap) (a : Nat) (v : Value) : Heap := ⟨h.mem.set a v⟩

theorem Heap.alloc_size (h : Heap) (v : Value) : ((h.alloc v).1).size = h.size + 1 := by
  simp [Heap.alloc, Heap.size]

theorem Heap.alloc_addr (h : Heap) (v : Value) : (h.alloc v).2 = h.size := rfl

theorem Heap.read_alloc_lt (h : Heap) (v : Value) (a : Nat) (ha : a < h.size) :
    ((h.alloc v).1).read a = h.read a := by
  simp only [Heap.alloc, Heap.read, List.getD_eq_getElem?_getD]
  rw [List.getElem?_append_left ha]

theorem Heap.read_alloc_new (h : Heap) (v : Value) :
    ((h.alloc v).1).read h.size = v := by
  simp only [Heap.alloc, Heap.read, Heap.size, List.getD_eq_getElem?_getD]
  rw [List.getElem?_concat_length]
  rfl

theorem Heap.read_write_ne (h : Heap) (a a' : Nat) (v : Value) (hne : a ≠ a') :
    (h.write a' v).read a = h.read a := by
  simp only [Heap.write, Heap.read, List.getD_eq_getElem?_getD]
  rw [List.getElem?_set_ne (fun hh => hne hh.symm)]

/-- The reference-level state of a constructed `Task`: addresses of its
mutable attribute storage (`args`), of the optional block, role and
task-include objects, and the dependency chain of references. -/
structure MTask where
  argsRef : Nat
  blockRef : Option Nat
  roleRef : Option Nat
  taskIncludeRef : Option Nat
  dep_chain : List Nat

/-- Modelled from the spec: object construction instantiates each
schema default fresh — in particular the mapping default of `args`
(`dict()` in the descriptor at task.py line 58) is allocated as a new
empty dict for this instance, never a shared static one; block, role
and task include start empty (task.py lines 98-106). -/
def mkTask (h : Heap) : Heap × MTask :=
  let al := h.alloc (Value.vmap [])
  (al.1,
    { argsRef := al.2, blockRef := none, roleRef := none,
      taskIncludeRef := none, dep_chain := [] })

/-- Claim C7: two separately constructed tasks never share the mutable
default of `args`: the two defaults live at distinct addresses, and
writing through either task's `args` reference leaves the other task's
`args` object unchanged. -/
theorem fresh_default_no_leak (h h1 h2 : Heap) (t1 t2 : MTask) (w : Value)
    (hc1 : mkTask h = (h1, t1)) (hc2 : mkTask h1 = (h2, t2)) :
    t1.argsRef ≠ t2.argsRef ∧
    (h2.write t2.argsRef w).read t1.argsRef = h2.read t1.argsRef ∧
    (h2.write t1.argsRef w).read t2.argsRef = h2.read t2.argsRef := by
  have h1eq : h1 = (mkTask h).1 := by rw [hc1]
  have t1eq : t1 = (mkTask h).2 := by rw [hc1]
  subst h1eq
  subst t1eq
  have t2eq : t2 = (mkTask (mkTask h).1).2 := by rw [hc2]
  subst t2eq
  have e1 : (mkTask h).2.argsRef = h.size := rfl
  have e2 : (mkTask (mkTask h).1).2.argsRef = h.size + 1 := by
    simp [mkTask, Heap.alloc, Heap.size]
  have hne : (mkTask h).2.argsRef ≠ (mkTask (mkTask h).1).2.argsRef := by
    rw [e1, e2]
    omega
  exact ⟨hne, Heap.read_write_ne h2 _ _ w hne, Heap.read_write_ne h2 _ _ w (Ne.symm hne)⟩

theorem fresh_default_no_leak_witness :
    ((mkTask ⟨[]⟩).2.argsRef ≠ (mkTask (mkTask ⟨[]⟩).1).2.argsRef) ∧
    (((mkTask (mkTask ⟨[]⟩).1).1.write (mkTask (mkTask ⟨[]⟩).1).2.argsRef
        (Value.vstr "x")).read (mkTask ⟨[]⟩).2.argsRef =
      (mkTask (mkTask ⟨[]⟩).1).1.read (mkTask ⟨[]⟩).2.argsRef) ∧
    (((mkTask (mkTask ⟨[]⟩).1).1.write (mkTask ⟨[]⟩).2.argsRef
        (Value.vstr "x")).read (mkTask (mkTask ⟨[]⟩).1).2.argsRef =
      (mkTask (mkTask ⟨[]⟩).1).1.read (mkTask (mkTask ⟨[]⟩).1).2.argsRef) :=
  fresh_default_no_leak ⟨[]⟩ (mkTask ⟨[]⟩).1 (mkTask (mkTask ⟨[]⟩).1).1
    (mkTask ⟨[]⟩).2 (mkTask (mkTask ⟨[]⟩).1).2 (Value.vstr "x") rfl rfl

/-- `Task.copy` (task.py lines 222-238) over the reference model:
`Base.copy` (modelled from the spec: "independent attribute storage")
duplicates the args mapping into a fresh cell; `new_me._dep_chain =
self._dep_chain[:]` shallow-copies the reference list; the block and
the task include, when present, are deep-copied (`.copy()`) into fresh
cells with the same contents; the role reference is shared
(`new_me._role = self._role`). -/
def MTask.copy (t : MTask) (h : Heap) : Heap × MTask :=
  let aArgs := h.alloc (h.read t.argsRef)
  let dep := t.dep_chain
  let stB : Heap × Option Nat :=
    match t.blockRef with
    | some br =>
      let ab := aArgs.1.alloc (aArgs.1.read br)
      (ab.1, some ab.2)
    | none => (aArgs.1, none)
  let stT : Heap × Option Nat :=
    match t.taskIncludeRef with
    | some tr =>
      let at1 := stB.1.alloc (stB.1.read tr)
      (at1.1, some at1.2)
    | none => (stB.1, none)
  (stT.1,
    { argsRef := aArgs.2, blockRef := stB.2, roleRef := t.roleRef,
      taskIncludeRef := stT.2, dep_chain := dep })

/-- Claim C9: `copy()` yields independent attribute storage — the
copy's `args` lives at a fresh address, writing through it leaves the
original's `args` unchanged, and its contents equal the original's —
the Block and TaskInclude are deep-copied (fresh addresses, same
contents), the Role reference is shared (same address, identity), and
the dependency chain is shallow-copied with its order preserved. -/
theorem copy_semantics (h : Heap) (t : MTask) (w : Value)
    (hav : t.argsRef < h.size)
    (hbv : ∀ br, t.blockRef = some br → br < h.size)
    (htv : ∀ tr, t.taskIncludeRef = some tr → tr < h.size) :
    (t.copy h).2.argsRef ≠ t.argsRef ∧
    (((t.copy h).1.write (t.copy h).2.argsRef w).read t.argsRef =
      (t.copy h).1.read t.argsRef) ∧
    (t.copy h).1.read (t.copy h).2.argsRef = h.read t.argsRef ∧
    (t.copy h).2.roleRef = t.roleRef ∧
    (t.copy h).2.dep_chain = t.dep_chain ∧
    (∀ br, t.blockRef = some br →
      ∃ nb, (t.copy h).2.blockRef = some nb ∧ nb ≠ br ∧
        (t.copy h).1.read nb = h.read br) ∧
    (t.blockRef = none → (t.copy h).2.blockRef = none) ∧
    (∀ tr, t.taskIncludeRef = some tr →
      ∃ nt, (t.copy h).2.taskIncludeRef = some nt ∧ nt ≠ tr ∧
        (t.copy h).1.read nt = h.read tr) ∧
    (t.taskIncludeRef = none → (t.copy h).2.taskIncludeRef = none) := by
  have eargs : (t.copy h).2.argsRef = h.size := rfl
  refine ⟨?_, ?_, ?_, rfl, rfl, ?_, ?_, ?_, ?_⟩
  · rw [eargs]
    omega
  · refine Heap.read_write_ne _ _ _ _ ?_
    rw [eargs]
    omega
  · cases hb : t.blockRef with
    | none =>
      cases ht : t.taskIncludeRef with
      | none =>
        simp only [MTask.copy, hb, ht]
        rw [Heap.alloc_addr, Heap.read_alloc_new]
      | some tr0 =>
        simp only [MTask.copy, hb, ht]
        rw [Heap.alloc_addr,
          Heap.read_alloc_lt _ _ _ (by simp only [Heap.alloc_addr, Heap.alloc_size]; omega),
          Heap.read_alloc_new]
    | some br0 =>
      cases ht : t.taskIncludeRef with
      | none =>
        simp only [MTask.copy, hb, ht]
        rw [Heap.alloc_addr,
          Heap.read_alloc_lt _ _ _ (by simp only [Heap.alloc_addr, Heap.alloc_size]; omega),
          Heap.read_alloc_new]
      | some tr0 =>
        simp only [MTask.copy, hb, ht]
        rw [Heap.alloc_addr,
          Heap.read_alloc_lt _ _ _ (by simp only [Heap.alloc_addr, Heap.alloc_size]; omega),
          Heap.read_alloc_lt _ _ _ (by simp only [Heap.alloc_addr, Heap.alloc_size]; omega),
          Heap.read_alloc_new]
  · intro br hbr
    have hbrs : br < h.size := hbv br hbr
    cases ht : t.taskIncludeRef with
    | none =>
      simp only [MTask.copy, hbr, ht]
      refine ⟨_, rfl, ?_, ?_⟩
      · simp only [Heap.alloc_addr, Heap.alloc_size]
        omega
      · rw [Heap.alloc_addr, Heap.read_alloc_new,
          Heap.read_alloc_lt _ _ _ hbrs]
    | some tr0 =>
      simp only [MTask.copy, hbr, ht]
      refine ⟨_, rfl, ?_, ?_⟩
      · simp only [Heap.alloc_addr, Heap.alloc_size]
        omega
      · rw [Heap.alloc_addr,
          Heap.read_alloc_lt _ _ _ (by simp only [Heap.alloc_addr, Heap.alloc_size]; omega),
          Heap.read_alloc_new,
          Heap.read_alloc_lt _ _ _ hbrs]
  · intro hbr
    cases ht : t.taskIncludeRef with
    | none => simp [MTask.copy, hbr, ht]
    | some tr0 => simp [MTask.copy, hbr, ht]
  · intro tr htr
    have htrs : tr < h.size := htv tr htr
    cases hb : t.blockRef with
    | none =>
      simp only [MTask.copy, hb, htr]
      refine ⟨_, rfl, ?_, ?_⟩
      · simp only [Heap.alloc_addr, Heap.alloc_size]
        omega
      · rw [Heap.alloc_addr, Heap.read_alloc_new,
          Heap.read_alloc_lt _ _ _ htrs]
    | some br0 =>
      simp only [MTask.copy, hb, htr]
      refine ⟨_, rfl, ?_, ?_⟩
      · simp only [Heap.alloc_addr, Heap.alloc_size]
        omega
      · rw [Heap.alloc_addr, Heap.read_alloc_new,
          Heap.read_alloc_lt _ _ _ (by simp only [Heap.alloc_addr, Heap.alloc_size]; omega),
          Heap.read_alloc_lt _ _ _ htrs]
  · intro htr
    cases hb : t.blockRef with
    | none => simp [MTask.copy, hb, htr]
    | some br0 => simp [MTask.copy, hb, htr]

/-- A concrete heap for the `copy` witness: the original task's args
dict at address 0, its block contents at 1, its task-include contents
at 2. -/
def exHeap : Heap := ⟨[Value.vmap [("pkg", Value.vstr "nginx")],
  Value.vmap [("bwhen", Value.vstr "c")], Value.vmap [("inc", Value.vstr "f")]]⟩

/-- The concrete task instantiating the `copy` theorem. -/
def exMTask : MTask :=
  { argsRef := 0, blockRef := some 1, roleRef := some 7,
    taskIncludeRef := some 2, dep_chain := [5, 6] }

theorem copy_semantics_witness :
    (exMTask.copy exHeap).2.argsRef ≠ exMTask.argsRef ∧
    (((exMTask.copy exHeap).1.write (exMTask.copy exHeap).2.argsRef
        (Value.vstr "w")).read exMTask.argsRef =
      (exMTask.copy exHeap).1.read exMTask.argsRef) ∧
    (exMTask.copy exHeap).2.roleRef = exMTask.roleRef ∧
    (exMTask.copy exHeap).2.dep_chain = exMTask.dep_chain :=
  have hc := copy_semantics exHeap exMTask (Value.vstr "w")
    (by decide)
    (by
      intro br hbr
      cases hbr
      decide)
    (by
      intro tr htr
      cases htr
      decide)
  ⟨hc.1, hc.2.1, hc.2.2.2.1, hc.2.2.2.2.1⟩

end AnsibleTask
